import Mathlib

/-!
# Fixed-window rate limiter

A shallow embedding of `internal/fixedwindow/fixed_window.go`,
`internal/rlerrors/errors.go` and `pkg/ratelimiter/rate_limiter.go`.

Modelling conventions.

* A `time.Time` is the integer number of nanoseconds since Go's zero time.
  Every comparison in `Allow` has a truncated operand (no monotonic reading),
  so Go compares wall-clock instants; that instant is the integer used here.
* A `time.Duration` is an integer number of nanoseconds.
* `time.Now()` is an explicit argument `now` of `Allow`.
* The map `store` from client identifier to `*ClientState` is a finite partial
  function, modelled as `String → Option ClientState`; writing through the
  pointer is modelled by replacing the entry.
* `currReqNum` is only incremented below `limit`, so no machine overflow can
  occur and `Int` is exact.
* The interface value `rl` of the facade is nil or holds a `*FixedWindow`, the only
  implementation of `RateLimiter` in the repository; it is an `Option FixedWindow`,
  and a method call on nil is a panic, the `Except.error` result of
  `RateLimit.Allow`.
* An option `func(*RateLimit) error` is a function from the `RateLimit` before the
  call to the `RateLimit` after it and the returned error.
* Errors returned by options are trees built by Go's `errors.Join`, with the
  message and the wrapped errors that the standard library defines for them.
-/

namespace Ratelimiter

/-- The two sentinel errors of package `rlerrors`. -/
inductive RlError where
  | ErrInvalidClientID
  | ErrRateLimitExceeded
  deriving DecidableEq, Repr

/-- Per-client record: request count and the time of the last call. -/
structure ClientState where
  currReqNum : Int
  currTime : Int
  deriving DecidableEq, Repr

/-- The client-state map of the limiter. -/
abbrev Store := String → Option ClientState

/-- The limiter: configuration and the client-state map. -/
structure FixedWindow where
  limit : Int
  windowSize : Int
  store : Store

/-- The value pair returned by `Allow`: admitted flag and error (`none` is nil). -/
abbrev Result := Bool × Option RlError

/-- Map assignment `store[k] = v`. -/
def Store.set (s : Store) (k : String) (v : ClientState) : Store :=
  fun k2 => if k2 = k then some v else s k2

/-- `NewFixedWindow(limit, windowSize)`: an empty store. -/
def NewFixedWindow (limit windowSize : Int) : FixedWindow :=
  { limit := limit, windowSize := windowSize, store := fun _ => none }

/-- `t.Truncate(d)`: round `t` down to a multiple of `d` since the zero time;
for `d <= 0` the time is returned unchanged. -/
def Truncate (t d : Int) : Int :=
  if d ≤ 0 then t else t - t % d

/-- `fw.Allow(clientID)` with the clock reading `now`; returns the result pair
and the limiter after the call. -/
def FixedWindow.Allow (fw : FixedWindow) (clientID : String) (now : Int) : Result × FixedWindow :=
  if clientID.utf8ByteSize = 0 then
    ((false, some RlError.ErrInvalidClientID), fw)
  else
    let windowStart := Truncate now fw.windowSize
    let windowEnd := windowStart + fw.windowSize
    match fw.store clientID with
    | none =>
      ((true, none),
        { fw with store := fw.store.set clientID { currReqNum := 1, currTime := now } })
    | some state =>
      let ct := state.currTime
      if ct < windowStart then
        ((true, none),
          { fw with store := fw.store.set clientID { currReqNum := 1, currTime := now } })
      else if ct = windowStart ∨ ct < windowEnd then
        if state.currReqNum ≥ fw.limit then
          ((false, some RlError.ErrRateLimitExceeded),
            { fw with store :=
                fw.store.set clientID { currReqNum := state.currReqNum, currTime := now } })
        else
          ((true, none),
            { fw with store :=
                fw.store.set clientID { currReqNum := state.currReqNum + 1, currTime := now } })
      else
        ((false, some RlError.ErrRateLimitExceeded),
          { fw with store :=
              fw.store.set clientID { currReqNum := state.currReqNum, currTime := now } })

/-- A sequence of `Allow` calls, each with its client and clock reading; returns
the results in call order and the final limiter. -/
def run (fw : FixedWindow) : List (String × Int) → List Result × FixedWindow
  | [] => ([], fw)
  | (c, t) :: rest =>
    let r := fw.Allow c t
    let rs := run r.2 rest
    (r.1 :: rs.1, rs.2)

/-- Consecutive `Allow` calls of one client at the given clock readings. -/
def runClient (fw : FixedWindow) (c : String) (ts : List Int) : List Result × FixedWindow :=
  run fw (ts.map fun t => (c, t))

/-- The instant `t` lies in the clock-aligned window that contains `w`, that is in
`[floor(w, d), floor(w, d) + d)`. -/
def inWindow (d w t : Int) : Prop :=
  Truncate w d ≤ t ∧ t < Truncate w d + d

instance (d w t : Int) : Decidable (inWindow d w t) := by
  unfold inWindow
  infer_instance

/-- The calls of a sequence paired with the results `Allow` returned for them. -/
def trace (fw : FixedWindow) (calls : List (String × Int)) :
    List ((String × Int) × Result) :=
  calls.zip (run fw calls).1

/-- Number of calls of client `c`, with timestamp in the aligned window containing
`w`, that returned admitted = true. -/
def admittedIn (d : Int) (c : String) (w : Int) (tr : List ((String × Int) × Result)) : Nat :=
  (tr.filter fun e => decide (e.1.1 = c ∧ inWindow d w e.1.2 ∧ e.2.1 = true)).length

/-- The results returned to client `c`, in call order. -/
def resultsFor (c : String) (tr : List ((String × Int) × Result)) : List Result :=
  (tr.filter fun e => decide (e.1.1 = c)).map Prod.snd

/-- The part of the quota of the aligned window containing `w` that the stored entry
of client `c` already accounts for: its count when its timestamp lies in that window,
zero otherwise. -/
def usedIn (fw : FixedWindow) (c : String) (w : Int) : Int :=
  match fw.store c with
  | none => 0
  | some st => if inWindow fw.windowSize w st.currTime then st.currReqNum else 0

/-- The bookkeeping invariant of a limiter with window size `d` after the calls
recorded in `tr`: the empty identifier has no entry; a client without an entry has
had no call admitted; the timestamp of an entry is the time of a recorded call and no
recorded call of that client is later; and the count of an entry is the number of
admitted calls of that client in the aligned window of its timestamp. -/
def CountInv (d : Int) (fw : FixedWindow) (tr : List ((String × Int) × Result)) : Prop :=
  fw.store "" = none ∧
  ∀ c, (fw.store c = none → ∀ e ∈ tr, e.1.1 = c → e.2.1 = false) ∧
    (∀ st, fw.store c = some st →
      (∃ e ∈ tr, e.1.2 = st.currTime) ∧
      (∀ e ∈ tr, e.1.1 = c → e.1.2 ≤ st.currTime) ∧
      st.currReqNum = (admittedIn d c st.currTime tr : Int))

/-! ## The facade of package `ratelimiter` and Go's `errors.Join` -/

/-- A Go `error` value as far as `errors.Join` distinguishes: an error that is not a
join, with its message, or a `*joinError` with the errors it wraps. -/
inductive GoError where
  | base (msg : String)
  | join (errs : List GoError)

mutual
/-- The method `Error()`: the message of an error; a join gives the messages of the
wrapped errors separated by newlines. -/
def GoError.Error : GoError → String
  | .base m => m
  | .join es => GoError.joinedMessage es
/-- The message loop of `(*joinError).Error()`. -/
def GoError.joinedMessage : List GoError → String
  | [] => ""
  | [e] => e.Error
  | e :: f :: es => e.Error ++ "\n" ++ GoError.joinedMessage (f :: es)
end

mutual
/-- The messages of the non-join errors an error wraps, in the depth-first order in
which `errors.Is` and `errors.As` walk the tree. -/
def GoError.leaves : GoError → List String
  | .base m => [m]
  | .join es => GoError.leavesOfList es
/-- The leaves of a list of errors, in order. -/
def GoError.leavesOfList : List GoError → List String
  | [] => []
  | e :: es => e.leaves ++ GoError.leavesOfList es
end

/-- Go's `errors.Join(errs...)`: nil values are discarded; nil when nothing is left,
otherwise a `*joinError` wrapping the remaining errors in order. -/
def errorsJoin (errs : List (Option GoError)) : Option GoError :=
  if (errs.filterMap id).isEmpty then none else some (GoError.join (errs.filterMap id))

/-- Messages separated by newlines. -/
def joinMessages : List String → String
  | [] => ""
  | [m] => m
  | m :: n :: ms => m ++ "\n" ++ joinMessages (n :: ms)

/-- A run-time panic of the Go program. -/
inductive GoPanic where
  | nilDereference
  deriving DecidableEq, Repr

/-- The struct `RateLimit`: the interface value `rl` (nil, or the `*FixedWindow` it
holds, the only implementation of `RateLimiter` in the repository) and the label. -/
structure RateLimit where
  rl : Option FixedWindow
  rlType : String

/-- The type `Option` of the source, `func(*RateLimit) error`: the `RateLimit` after
the call and the returned error. -/
abbrev RateLimitOption := RateLimit → RateLimit × Option GoError

/-- `WithFixedWindow(limit, windowsize)`: the limiter is created when the option is
built; the option installs it and the label and returns nil. -/
def WithFixedWindow (limit windowsize : Int) : RateLimitOption :=
  let fw := NewFixedWindow limit windowsize
  fun r => ({ r with rl := some fw, rlType := "FixedWindow" }, none)

/-- `WithTokenBucket()`: the option returns nil. -/
def WithTokenBucket : RateLimitOption :=
  fun rl => (rl, none)

/-- The loop of `NewRateLimit` over the remaining options, with the `RateLimit` and
the accumulated error `cerr`. -/
def NewRateLimit.loop (r : RateLimit) (cerr : Option GoError) :
    List RateLimitOption → RateLimit × Option GoError
  | [] => (r, cerr)
  | opt :: rest =>
    match opt r with
    | (r2, some err) => NewRateLimit.loop r2 (errorsJoin [cerr, some err]) rest
    | (r2, none) => NewRateLimit.loop r2 cerr rest

/-- `NewRateLimit(opts...)`: starts from the zero `RateLimit` and a nil error. -/
def NewRateLimit (opts : List RateLimitOption) : RateLimit × Option GoError :=
  NewRateLimit.loop { rl := none, rlType := "" } none opts

/-- `r.Allow(clientID)` with the clock reading `now`: the call `r.rl.Allow(clientID)`
panics on a nil interface value. -/
def RateLimit.Allow (r : RateLimit) (clientID : String) (now : Int) :
    Except GoPanic (Result × RateLimit) :=
  match r.rl with
  | none => Except.error GoPanic.nilDereference
  | some fw => Except.ok ((fw.Allow clientID now).1, { r with rl := some (fw.Allow clientID now).2 })

/-- `r.Type()`. -/
def RateLimit.Type (r : RateLimit) : String :=
  r.rlType

/-- A sequence of `RateLimit.Allow` calls; the results in call order, or the panic
that ended the sequence. -/
def runFacade (r : RateLimit) : List (String × Int) → Except GoPanic (List Result)
  | [] => Except.ok []
  | (c, t) :: rest =>
    match r.Allow c t with
    | Except.error p => Except.error p
    | Except.ok (res, r2) =>
      match runFacade r2 rest with
      | Except.error p => Except.error p
      | Except.ok rs => Except.ok (res :: rs)

/-- The two options of the package, as data: the arguments of a `WithFixedWindow`
call, or `WithTokenBucket()`. -/
inductive OptionCall where
  | fixedWindow (limit windowsize : Int)
  | tokenBucket
  deriving DecidableEq, Repr

/-- The option a call builds. -/
def OptionCall.build : OptionCall → RateLimitOption
  | .fixedWindow limit windowsize => WithFixedWindow limit windowsize
  | .tokenBucket => WithTokenBucket

/-- Written from the spec's words: every option is applied once, in list order, to
the same `RateLimit` value, whatever the earlier options returned; gives the final
`RateLimit` and the error each option returned. -/
def applyInOrder (r : RateLimit) : List RateLimitOption → RateLimit × List (Option GoError)
  | [] => (r, [])
  | opt :: rest => ((applyInOrder (opt r).1 rest).1, (opt r).2 :: (applyInOrder (opt r).1 rest).2)

/-! ## Basic facts -/

theorem utf8ByteSize_go_eq_zero (cs : List Char) :
    String.utf8ByteSize.go cs = 0 ↔ cs = [] := by
  cases cs with
  | nil => simp [String.utf8ByteSize.go]
  | cons a as =>
    have := Char.utf8Size_pos a
    simp [String.utf8ByteSize.go]
    omega

theorem utf8ByteSize_eq_zero (s : String) : s.utf8ByteSize = 0 ↔ s = "" := by
  cases s with
  | mk cs =>
    simp only [String.utf8ByteSize, utf8ByteSize_go_eq_zero]
    constructor
    · intro h; subst h; rfl
    · intro h; exact congrArg String.data h

theorem Truncate_pos {d : Int} (hd : 0 < d) (t : Int) : Truncate t d = t - t % d := by
  simp [Truncate, not_le.mpr hd]

theorem Truncate_le {d : Int} (hd : 0 < d) (t : Int) : Truncate t d ≤ t := by
  have := Int.emod_nonneg t (ne_of_gt hd)
  rw [Truncate_pos hd]; omega

theorem lt_Truncate_add {d : Int} (hd : 0 < d) (t : Int) : t < Truncate t d + d := by
  have := Int.emod_lt_of_pos t hd
  rw [Truncate_pos hd]; omega

theorem Truncate_eq_of_inWindow {d : Int} (hd : 0 < d) {w t : Int} (h : inWindow d w t) :
    Truncate t d = Truncate w d := by
  obtain ⟨h1, h2⟩ := h
  rw [Truncate_pos hd] at h1 h2 ⊢
  rw [Truncate_pos hd]
  have hq : w - w % d = d * (w / d) := by
    have := Int.ediv_add_emod w d
    omega
  have ht : t = (t - (w - w % d)) + d * (w / d) := by omega
  have hmod : t % d = t - (w - w % d) := by
    rw [ht, Int.add_mul_emod_self_left, Int.emod_eq_of_lt (by omega) (by omega)]
    omega
  omega

/-! ## The branches of `Allow` -/

theorem Allow_none {fw : FixedWindow} {c : String} (t : Int) (hc : c ≠ "")
    (h : fw.store c = none) :
    fw.Allow c t = ((true, none),
      { fw with store := fw.store.set c { currReqNum := 1, currTime := t } }) := by
  have hz : ¬ c.utf8ByteSize = 0 := fun e => hc ((utf8ByteSize_eq_zero c).mp e)
  simp [FixedWindow.Allow, hz, h]

theorem Allow_reset {fw : FixedWindow} {c : String} {st : ClientState} (t : Int) (hc : c ≠ "")
    (h : fw.store c = some st) (hlt : st.currTime < Truncate t fw.windowSize) :
    fw.Allow c t = ((true, none),
      { fw with store := fw.store.set c { currReqNum := 1, currTime := t } }) := by
  have hz : ¬ c.utf8ByteSize = 0 := fun e => hc ((utf8ByteSize_eq_zero c).mp e)
  simp [FixedWindow.Allow, hz, h, hlt]

theorem Allow_same_deny {fw : FixedWindow} {c : String} {st : ClientState} (t : Int)
    (hc : c ≠ "") (h : fw.store c = some st) (h1 : Truncate t fw.windowSize ≤ st.currTime)
    (h2 : st.currTime < Truncate t fw.windowSize + fw.windowSize)
    (hq : fw.limit ≤ st.currReqNum) :
    fw.Allow c t = ((false, some RlError.ErrRateLimitExceeded),
      { fw with store := fw.store.set c { currReqNum := st.currReqNum, currTime := t } }) := by
  have hz : ¬ c.utf8ByteSize = 0 := fun e => hc ((utf8ByteSize_eq_zero c).mp e)
  simp [FixedWindow.Allow, hz, h, not_lt.mpr h1, h2, hq]

theorem Allow_same_ok {fw : FixedWindow} {c : String} {st : ClientState} (t : Int)
    (hc : c ≠ "") (h : fw.store c = some st) (h1 : Truncate t fw.windowSize ≤ st.currTime)
    (h2 : st.currTime < Truncate t fw.windowSize + fw.windowSize)
    (hq : st.currReqNum < fw.limit) :
    fw.Allow c t = ((true, none),
      { fw with store := fw.store.set c { currReqNum := st.currReqNum + 1, currTime := t } }) := by
  have hz : ¬ c.utf8ByteSize = 0 := fun e => hc ((utf8ByteSize_eq_zero c).mp e)
  simp [FixedWindow.Allow, hz, h, not_lt.mpr h1, h2, not_le.mpr hq]

theorem Allow_skew {fw : FixedWindow} {c : String} {st : ClientState} (t : Int)
    (hc : c ≠ "") (h : fw.store c = some st) (hd : 0 < fw.windowSize)
    (h2 : Truncate t fw.windowSize + fw.windowSize ≤ st.currTime) :
    fw.Allow c t = ((false, some RlError.ErrRateLimitExceeded),
      { fw with store := fw.store.set c { currReqNum := st.currReqNum, currTime := t } }) := by
  have hz : ¬ c.utf8ByteSize = 0 := fun e => hc ((utf8ByteSize_eq_zero c).mp e)
  have a1 : ¬ st.currTime < Truncate t fw.windowSize := by omega
  have a2 : ¬ st.currTime = Truncate t fw.windowSize := by omega
  have a3 : ¬ st.currTime < Truncate t fw.windowSize + fw.windowSize := by omega
  simp [FixedWindow.Allow, hz, h, a1, a2, a3]

theorem Allow_limit (fw : FixedWindow) (c : String) (t : Int) :
    (fw.Allow c t).2.limit = fw.limit := by
  unfold FixedWindow.Allow
  by_cases hz : c.utf8ByteSize = 0
  · simp [hz]
  · cases hs : fw.store c with
    | none => simp [hz]
    | some st =>
      simp only [hz, if_false]
      split_ifs <;> rfl

theorem Allow_windowSize (fw : FixedWindow) (c : String) (t : Int) :
    (fw.Allow c t).2.windowSize = fw.windowSize := by
  unfold FixedWindow.Allow
  by_cases hz : c.utf8ByteSize = 0
  · simp [hz]
  · cases hs : fw.store c with
    | none => simp [hz]
    | some st =>
      simp only [hz, if_false]
      split_ifs <;> rfl

theorem Store.set_same (s : Store) (k : String) (v : ClientState) : s.set k v k = some v := by
  simp [Store.set]

theorem Store.set_other (s : Store) {k k2 : String} (v : ClientState) (h : k2 ≠ k) :
    s.set k v k2 = s k2 := by
  simp [Store.set, h]

theorem Allow_store_other (fw : FixedWindow) {c c2 : String} (t : Int) (h : c ≠ c2) :
    (fw.Allow c t).2.store c2 = fw.store c2 := by
  have h2 : c2 ≠ c := fun e => h e.symm
  unfold FixedWindow.Allow
  by_cases hz : c.utf8ByteSize = 0
  · simp [hz]
  · cases hs : fw.store c with
    | none => simpa [hz] using Store.set_other _ _ h2
    | some st =>
      simp only [hz, if_false]
      split_ifs <;> exact Store.set_other _ _ h2

theorem Allow_empty (fw : FixedWindow) (t : Int) :
    fw.Allow "" t = ((false, some RlError.ErrInvalidClientID), fw) := by
  have hz : "".utf8ByteSize = 0 := by decide
  unfold FixedWindow.Allow
  rw [if_pos hz]

/-- The result of `Allow` for a client and that client's entry afterwards depend
only on the configuration and on that client's entry. -/
theorem Allow_congr {fw fw2 : FixedWindow} (c : String) (t : Int)
    (hl : fw.limit = fw2.limit) (hw : fw.windowSize = fw2.windowSize)
    (hs : fw.store c = fw2.store c) :
    (fw.Allow c t).1 = (fw2.Allow c t).1 ∧
      (fw.Allow c t).2.store c = (fw2.Allow c t).2.store c := by
  by_cases hz : c.utf8ByteSize = 0
  · simp [FixedWindow.Allow, hz, hs]
  · unfold FixedWindow.Allow
    simp only [hz, if_false, ← hl, ← hw, ← hs]
    cases fw.store c with
    | none => simp [Store.set]
    | some st =>
      simp only
      split_ifs <;> simp [Store.set]

/-! ## Sequences of calls -/

theorem run_cons (fw : FixedWindow) (c : String) (t : Int) (rest : List (String × Int)) :
    run fw ((c, t) :: rest) =
      ((fw.Allow c t).1 :: (run (fw.Allow c t).2 rest).1, (run (fw.Allow c t).2 rest).2) :=
  rfl

theorem trace_nil (fw : FixedWindow) : trace fw [] = [] := rfl

theorem trace_cons (fw : FixedWindow) (c : String) (t : Int) (rest : List (String × Int)) :
    trace fw ((c, t) :: rest) = ((c, t), (fw.Allow c t).1) :: trace (fw.Allow c t).2 rest :=
  rfl

theorem runClient_nil (fw : FixedWindow) (c : String) : runClient fw c [] = ([], fw) := rfl

theorem runClient_cons (fw : FixedWindow) (c : String) (t : Int) (ts : List Int) :
    runClient fw c (t :: ts) =
      ((fw.Allow c t).1 :: (runClient (fw.Allow c t).2 c ts).1,
        (runClient (fw.Allow c t).2 c ts).2) :=
  rfl

/-- Results of one client in an interleaved run equal the results of that client's
calls alone, from any limiter that agrees on the configuration and on the client's
entry. -/
theorem resultsFor_trace_eq {fw fw2 : FixedWindow} (B : String) (calls : List (String × Int))
    (hl : fw.limit = fw2.limit) (hw : fw.windowSize = fw2.windowSize)
    (hs : fw.store B = fw2.store B) :
    resultsFor B (trace fw calls) =
      (run fw2 (calls.filter fun p => decide (p.1 = B))).1 := by
  induction calls generalizing fw fw2 with
  | nil => rfl
  | cons p rest ih =>
    obtain ⟨c, t⟩ := p
    by_cases hcB : c = B
    · subst hcB
      obtain ⟨hr, hst⟩ := Allow_congr c t hl hw hs
      have hl2 : (fw.Allow c t).2.limit = (fw2.Allow c t).2.limit := by
        rw [Allow_limit, Allow_limit, hl]
      have hw2 : (fw.Allow c t).2.windowSize = (fw2.Allow c t).2.windowSize := by
        rw [Allow_windowSize, Allow_windowSize, hw]
      have := ih hl2 hw2 hst
      simp only [resultsFor] at this ⊢
      simp [trace_cons, run_cons, hr, this]
    · have hst : (fw.Allow c t).2.store B = fw2.store B := by
        rw [Allow_store_other fw t hcB, hs]
      have hl2 : (fw.Allow c t).2.limit = fw2.limit := by rw [Allow_limit, hl]
      have hw2 : (fw.Allow c t).2.windowSize = fw2.windowSize := by rw [Allow_windowSize, hw]
      have := ih hl2 hw2 hst
      simp only [resultsFor] at this ⊢
      simp [trace_cons, hcB, this]

/-- Results of consecutive calls of one client whose entry and timestamps all lie
in one aligned window: call `j` (from 0) is admitted exactly when the count it
finds, `count + j`, is below the limit. -/
theorem runClient_in_window (fw : FixedWindow) (c : String) (now : Int) (ts : List Int)
    (st : ClientState) (hws : 0 < fw.windowSize) (hc : c ≠ "")
    (hst : fw.store c = some st) (hin : inWindow fw.windowSize now st.currTime)
    (hts : ∀ t ∈ ts, inWindow fw.windowSize now t) :
    (runClient fw c ts).1 = (List.range ts.length).map fun (j : Nat) =>
      if st.currReqNum + (j : Int) < fw.limit then ((true, none) : Result)
      else (false, some RlError.ErrRateLimitExceeded) := by
  induction ts generalizing fw st with
  | nil => rfl
  | cons t rest ih =>
    have ht : inWindow fw.windowSize now t := hts t (List.mem_cons_self _ _)
    have hrest : ∀ u ∈ rest, inWindow fw.windowSize now u :=
      fun u hu => hts u (List.mem_cons_of_mem _ hu)
    have hW : Truncate t fw.windowSize = Truncate now fw.windowSize :=
      Truncate_eq_of_inWindow hws ht
    have h1 : Truncate t fw.windowSize ≤ st.currTime := by rw [hW]; exact hin.1
    have h2 : st.currTime < Truncate t fw.windowSize + fw.windowSize := by rw [hW]; exact hin.2
    rw [runClient_cons, List.length_cons, List.range_succ_eq_map, List.map_cons, List.map_map]
    by_cases hq : st.currReqNum < fw.limit
    · rw [Allow_same_ok t hc hst h1 h2 hq]
      have := ih { fw with store := fw.store.set c { currReqNum := st.currReqNum + 1, currTime := t } }
        { currReqNum := st.currReqNum + 1, currTime := t } hws (Store.set_same _ _ _) ht hrest
      simp only at this
      rw [this]
      simp only [Nat.cast_zero, add_zero, hq, if_true, List.cons.injEq, true_and]
      apply List.map_congr_left
      intro j _
      simp only [Function.comp, Nat.succ_eq_add_one, Nat.cast_add, Nat.cast_one]
      have e : st.currReqNum + 1 + (j : Int) = st.currReqNum + ((j : Int) + 1) := by ring
      rw [e]
    · have hq2 : fw.limit ≤ st.currReqNum := not_lt.mp hq
      rw [Allow_same_deny t hc hst h1 h2 hq2]
      have := ih { fw with store := fw.store.set c { currReqNum := st.currReqNum, currTime := t } }
        { currReqNum := st.currReqNum, currTime := t } hws (Store.set_same _ _ _) ht hrest
      simp only at this
      rw [this]
      simp only [Nat.cast_zero, add_zero, hq, if_false, List.cons.injEq, true_and]
      apply List.map_congr_left
      intro j _
      simp only [Function.comp, Nat.succ_eq_add_one, Nat.cast_add, Nat.cast_one]
      have a1 : ¬ st.currReqNum + (j : Int) < fw.limit := by omega
      have a2 : ¬ st.currReqNum + ((j : Int) + 1) < fw.limit := by omega
      rw [if_neg a1, if_neg a2]

/-- In a list whose entry `i` (from 0) is admitted exactly when `i + 1 <= limit`,
the admitted entries number `min n limit`. -/
theorem count_admitted_range (limit : Int) (n : Nat) (hl : 0 ≤ limit) :
    (((List.map (fun (i : Nat) =>
        if (i : Int) + 1 ≤ limit then ((true, none) : Result)
        else (false, some RlError.ErrRateLimitExceeded)) (List.range n)).count
          (true, none) : Nat) : Int) = min (n : Int) limit := by
  induction n with
  | zero => simp [hl]
  | succ n ih =>
    rw [List.range_succ, List.map_append, List.count_append, Nat.cast_add, ih]
    by_cases h : (n : Int) + 1 ≤ limit
    · simp [h]; omega
    · simp [h]; omega

/-- In the same list the denied entries number `n - min n limit`. -/
theorem count_denied_range (limit : Int) (n : Nat) (hl : 0 ≤ limit) :
    (((List.map (fun (i : Nat) =>
        if (i : Int) + 1 ≤ limit then ((true, none) : Result)
        else (false, some RlError.ErrRateLimitExceeded)) (List.range n)).count
          (false, some RlError.ErrRateLimitExceeded) : Nat) : Int)
      = (n : Int) - min (n : Int) limit := by
  induction n with
  | zero => simp [hl]
  | succ n ih =>
    rw [List.range_succ, List.map_append, List.count_append, Nat.cast_add, ih]
    by_cases h : (n : Int) + 1 ≤ limit
    · simp [h]; omega
    · simp [h]; omega

/-- Consecutive calls of one client in one aligned window, starting from no entry
or from an entry of an earlier window (`limit >= 1`): call `i` (from 0) is admitted
exactly when `i + 1 <= limit`. -/
theorem runClient_fresh_window (fw : FixedWindow) (c : String) (now : Int) (ts : List Int)
    (hlimit : 1 ≤ fw.limit) (hws : 0 < fw.windowSize) (hc : c ≠ "")
    (hfresh : fw.store c = none ∨
      ∃ st, fw.store c = some st ∧ st.currTime < Truncate now fw.windowSize)
    (hts : ∀ t ∈ ts, inWindow fw.windowSize now t) :
    (runClient fw c ts).1 = List.map (fun (i : Nat) =>
        if (i : Int) + 1 ≤ fw.limit then ((true, none) : Result)
        else (false, some RlError.ErrRateLimitExceeded)) (List.range ts.length) := by
  cases ts with
  | nil => rfl
  | cons t rest =>
    have ht : inWindow fw.windowSize now t := hts t (List.mem_cons_self _ _)
    have hrest : ∀ u ∈ rest, inWindow fw.windowSize now u :=
      fun u hu => hts u (List.mem_cons_of_mem _ hu)
    have hW : Truncate t fw.windowSize = Truncate now fw.windowSize :=
      Truncate_eq_of_inWindow hws ht
    have hfirst : fw.Allow c t = ((true, none),
        { fw with store := fw.store.set c { currReqNum := 1, currTime := t } }) := by
      rcases hfresh with hn | ⟨st, hst, hlt⟩
      · exact Allow_none t hc hn
      · exact Allow_reset t hc hst (by rw [hW]; exact hlt)
    have hrun := runClient_in_window
      { fw with store := fw.store.set c { currReqNum := 1, currTime := t } } c now rest
      { currReqNum := 1, currTime := t } hws hc (Store.set_same _ _ _) ht hrest
    simp only at hrun
    rw [runClient_cons, hfirst, List.length_cons, List.range_succ_eq_map, List.map_cons,
      List.map_map]
    simp only [hrun, Nat.cast_zero, zero_add, hlimit, if_true, List.cons.injEq, true_and]
    apply List.map_congr_left
    intro j _
    simp only [Function.comp, Nat.succ_eq_add_one, Nat.cast_add, Nat.cast_one]
    by_cases h : (1 : Int) + (j : Int) < fw.limit
    · have h2 : (j : Int) + 1 + 1 ≤ fw.limit := by omega
      rw [if_pos h, if_pos h2]
    · have h2 : ¬ (j : Int) + 1 + 1 ≤ fw.limit := by omega
      rw [if_neg h, if_neg h2]

theorem inWindow_iff {d : Int} (hd : 0 < d) (w t : Int) :
    inWindow d w t ↔ Truncate t d = Truncate w d := by
  constructor
  · exact Truncate_eq_of_inWindow hd
  · intro h
    exact ⟨h ▸ Truncate_le hd t, h ▸ lt_Truncate_add hd t⟩

theorem admittedIn_nil (d : Int) (c : String) (w : Int) : admittedIn d c w [] = 0 := rfl

theorem admittedIn_cons (d : Int) (c : String) (w : Int) (e : (String × Int) × Result)
    (tr : List ((String × Int) × Result)) :
    admittedIn d c w (e :: tr) =
      (if e.1.1 = c ∧ inWindow d w e.1.2 ∧ e.2.1 = true then 1 else 0) + admittedIn d c w tr := by
  unfold admittedIn
  by_cases h : e.1.1 = c ∧ inWindow d w e.1.2 ∧ e.2.1 = true
  · rw [List.filter_cons_of_pos (by simpa using h), if_pos h, List.length_cons]; omega
  · rw [List.filter_cons_of_neg (by simpa using h), if_neg h]; omega

/-- No call of the client lies in the window: nothing is admitted there. -/
theorem admittedIn_trace_eq_zero (fw : FixedWindow) (d : Int) (c : String) (w : Int)
    (calls : List (String × Int)) (h : ∀ p ∈ calls, p.1 = c → ¬ inWindow d w p.2) :
    admittedIn d c w (trace fw calls) = 0 := by
  unfold admittedIn trace
  rw [List.length_eq_zero, List.filter_eq_nil_iff]
  intro e he
  have hmem : e.1 ∈ calls := (List.of_mem_zip (a := e.1) (b := e.2) he).1
  have := h e.1 hmem
  simp only [decide_eq_true_eq, not_and]
  intro h1 h2
  exact absurd h2 (this h1)

/-- One call of a non-empty client under a clock that has not moved back: the entry
afterwards carries the call time and a count within the limit, and either the
admission is accounted for by the growth of `usedIn`, or the call lies beyond the
window, whose quota was respected so far. -/
theorem step_summary (fw : FixedWindow) (c : String) (t w : Int)
    (hlimit : 1 ≤ fw.limit) (hws : 0 < fw.windowSize) (hc : c ≠ "")
    (hst : ∀ st, fw.store c = some st → st.currReqNum ≤ fw.limit ∧ st.currTime ≤ t) :
    (∃ st2, (fw.Allow c t).2.store c = some st2 ∧ st2.currTime = t ∧
        st2.currReqNum ≤ fw.limit) ∧
    (((if inWindow fw.windowSize w t ∧ (fw.Allow c t).1.1 = true then (1 : Int) else 0)
          + usedIn fw c w ≤ usedIn (fw.Allow c t).2 c w) ∨
      (Truncate w fw.windowSize + fw.windowSize ≤ t ∧
        (if inWindow fw.windowSize w t ∧ (fw.Allow c t).1.1 = true then (1 : Int) else 0)
          + usedIn fw c w ≤ fw.limit)) := by
  cases hs : fw.store c with
  | none =>
    rw [Allow_none t hc hs]
    refine ⟨⟨_, Store.set_same _ _ _, rfl, hlimit⟩, Or.inl ?_⟩
    simp only [usedIn, hs, Store.set_same, and_true, add_zero]
    exact le_refl _
  | some st =>
    obtain ⟨hcnt, hct⟩ := hst st hs
    by_cases h1 : st.currTime < Truncate t fw.windowSize
    · rw [Allow_reset t hc hs h1]
      refine ⟨⟨_, Store.set_same _ _ _, rfl, hlimit⟩, ?_⟩
      simp only [usedIn, hs, Store.set_same, and_true]
      have htr := Truncate_le hws t
      by_cases hin : inWindow fw.windowSize w t
      · left
        have hW := Truncate_eq_of_inWindow hws hin
        have hnot : ¬ inWindow fw.windowSize w st.currTime := by
          intro h
          have := h.1
          omega
        rw [if_pos hin, if_neg hnot]
        omega
      · by_cases hin2 : inWindow fw.windowSize w st.currTime
        · right
          rw [if_neg hin, if_pos hin2]
          have h3 := hin2.1
          have h4 : ¬ (Truncate w fw.windowSize ≤ t ∧ t < Truncate w fw.windowSize + fw.windowSize) :=
            hin
          constructor <;> omega
        · left
          rw [if_neg hin, if_neg hin2]
          omega
    · have hsame_or_skew : st.currTime < Truncate t fw.windowSize + fw.windowSize := by
        have := lt_Truncate_add hws t
        omega
      have h1' : Truncate t fw.windowSize ≤ st.currTime := not_lt.mp h1
      have hTr : Truncate st.currTime fw.windowSize = Truncate t fw.windowSize :=
        Truncate_eq_of_inWindow hws (w := t) ⟨h1', hsame_or_skew⟩
      have hiff : inWindow fw.windowSize w st.currTime ↔ inWindow fw.windowSize w t := by
        rw [inWindow_iff hws, inWindow_iff hws, hTr]
      by_cases hq : st.currReqNum < fw.limit
      · rw [Allow_same_ok t hc hs h1' hsame_or_skew hq]
        refine ⟨⟨_, Store.set_same _ _ _, rfl, by show st.currReqNum + 1 ≤ fw.limit; omega⟩,
          Or.inl ?_⟩
        simp only [usedIn, hs, Store.set_same, and_true, hiff]
        split_ifs <;> omega
      · rw [Allow_same_deny t hc hs h1' hsame_or_skew (not_lt.mp hq)]
        refine ⟨⟨_, Store.set_same _ _ _, rfl, hcnt⟩, Or.inl ?_⟩
        simp only [usedIn, hs, Store.set_same, hiff]
        split_ifs <;> simp_all

theorem usedIn_Allow_other (fw : FixedWindow) {c c2 : String} (t w : Int) (h : c2 ≠ c) :
    usedIn (fw.Allow c2 t).2 c w = usedIn fw c w := by
  unfold usedIn
  rw [Allow_store_other fw t h, Allow_windowSize]

/-- Under a non-decreasing clock the admissions of a client in an aligned window,
added to what its entry already accounts for in that window, stay within the limit. -/
theorem admitted_bound (fw : FixedWindow) (c : String) (w : Int) (calls : List (String × Int))
    (hlimit : 1 ≤ fw.limit) (hws : 0 < fw.windowSize)
    (hmono : List.Pairwise (fun a b => a ≤ b) (calls.map Prod.snd))
    (hst : ∀ st, fw.store c = some st →
      st.currReqNum ≤ fw.limit ∧ ∀ p ∈ calls, st.currTime ≤ p.2) :
    (admittedIn fw.windowSize c w (trace fw calls) : Int) + usedIn fw c w ≤ fw.limit := by
  induction calls generalizing fw with
  | nil =>
    rw [trace_nil, admittedIn_nil, Nat.cast_zero, zero_add]
    unfold usedIn
    cases hs : fw.store c with
    | none => simp only; omega
    | some st =>
      have := (hst st hs).1
      simp only
      split_ifs <;> omega
  | cons p rest ih =>
    obtain ⟨c2, t⟩ := p
    rw [List.map_cons, List.pairwise_cons] at hmono
    obtain ⟨hhead, htail⟩ := hmono
    have hle : ∀ p ∈ rest, t ≤ p.2 := fun p hp => hhead p.2 (List.mem_map_of_mem _ hp)
    have hl2 : 1 ≤ (fw.Allow c2 t).2.limit := by rw [Allow_limit]; exact hlimit
    have hw2 : 0 < (fw.Allow c2 t).2.windowSize := by rw [Allow_windowSize]; exact hws
    rw [trace_cons, admittedIn_cons, Nat.cast_add]
    by_cases hcc : c2 = c
    · subst hcc
      by_cases hc : c2 = ""
      · subst hc
        have := ih fw hlimit hws htail (fun st hs =>
          ⟨(hst st hs).1, fun p hp => (hst st hs).2 p (List.mem_cons_of_mem _ hp)⟩)
        rw [Allow_empty]
        simpa using this
      · obtain ⟨⟨st2, hs2, ht2, hcnt2⟩, hstep⟩ := step_summary fw c2 t w hlimit hws hc
          (fun st hs => ⟨(hst st hs).1, (hst st hs).2 (c2, t) (List.mem_cons_self _ _)⟩)
        have hih := ih (fw.Allow c2 t).2 hl2 hw2 htail (fun st hs => by
          rw [hs2] at hs
          cases hs
          rw [Allow_limit, ht2]
          exact ⟨hcnt2, hle⟩)
        rw [Allow_limit, Allow_windowSize] at hih
        have hcast : (((if (c2 = c2 ∧ inWindow fw.windowSize w t ∧ (fw.Allow c2 t).1.1 = true)
            then 1 else 0 : Nat) : Nat) : Int) =
            (if inWindow fw.windowSize w t ∧ (fw.Allow c2 t).1.1 = true then (1 : Int) else 0) := by
          split_ifs <;> simp_all
        simp only at hcast ⊢
        rw [hcast]
        rcases hstep with h | ⟨hbeyond, h⟩
        · omega
        · have hzero : admittedIn fw.windowSize c2 w (trace (fw.Allow c2 t).2 rest) = 0 := by
            apply admittedIn_trace_eq_zero
            intro p hp _ hin
            have := hle p hp
            have := hin.2
            omega
          rw [hzero]
          omega
    · have hih := ih (fw.Allow c2 t).2 hl2 hw2 htail (fun st hs => by
        rw [Allow_store_other fw t hcc] at hs
        rw [Allow_limit]
        exact ⟨(hst st hs).1, fun p hp => (hst st hs).2 p (List.mem_cons_of_mem _ hp)⟩)
      rw [Allow_limit, Allow_windowSize, usedIn_Allow_other fw t w hcc] at hih
      have hzero : (if (c2 = c ∧ inWindow fw.windowSize w t ∧ (fw.Allow c2 t).1.1 = true)
          then 1 else 0 : Nat) = 0 := by
        rw [if_neg]
        intro h
        exact hcc h.1
      simp only at hzero ⊢
      rw [hzero]
      omega

/-- A call of a non-empty client whose entry is at quota, for a limit of at most
one: the entry afterwards carries the call time and is still at quota, and unless the
stored timestamp is before the window of the call, the call is denied. -/
theorem Allow_at_quota (fw : FixedWindow) (c : String) (t : Int) (st : ClientState)
    (hl : fw.limit ≤ 1) (hws : 0 < fw.windowSize) (hc : c ≠ "")
    (hs : fw.store c = some st) (hq : fw.limit ≤ st.currReqNum) :
    (∃ st2, (fw.Allow c t).2.store c = some st2 ∧ st2.currTime = t ∧
        fw.limit ≤ st2.currReqNum) ∧
    (Truncate t fw.windowSize ≤ st.currTime →
      (fw.Allow c t).1 = (false, some RlError.ErrRateLimitExceeded)) := by
  by_cases h1 : st.currTime < Truncate t fw.windowSize
  · rw [Allow_reset t hc hs h1]
    exact ⟨⟨_, Store.set_same _ _ _, rfl, hl⟩, fun h => absurd h (not_le.mpr h1)⟩
  · by_cases h2 : st.currTime < Truncate t fw.windowSize + fw.windowSize
    · rw [Allow_same_deny t hc hs (not_lt.mp h1) h2 hq]
      exact ⟨⟨_, Store.set_same _ _ _, rfl, hq⟩, fun _ => rfl⟩
    · rw [Allow_skew t hc hs hws (not_lt.mp h2)]
      exact ⟨⟨_, Store.set_same _ _ _, rfl, hq⟩, fun _ => rfl⟩

/-- With a limit of at most one, once a client's entry is at quota with a timestamp
not before the start of a window, and as long as the clock readings of its calls do
not go back before that start, every call of the client in that window is denied. -/
theorem at_quota_denied (fw : FixedWindow) (c : String) (w : Int) (calls : List (String × Int))
    (hl : fw.limit ≤ 1) (hws : 0 < fw.windowSize) (hc : c ≠ "")
    (hst : ∃ st, fw.store c = some st ∧ Truncate w fw.windowSize ≤ st.currTime ∧
      fw.limit ≤ st.currReqNum)
    (hclock : ∀ p ∈ calls, p.1 = c → Truncate w fw.windowSize ≤ p.2) :
    ∀ e ∈ trace fw calls, e.1.1 = c → inWindow fw.windowSize w e.1.2 →
      e.2 = (false, some RlError.ErrRateLimitExceeded) := by
  induction calls generalizing fw with
  | nil =>
    intro e he
    simp [trace_nil] at he
  | cons p rest ih =>
    obtain ⟨c2, t⟩ := p
    obtain ⟨st, hs, htime, hq⟩ := hst
    have hl2 : (fw.Allow c2 t).2.limit ≤ 1 := by rw [Allow_limit]; exact hl
    have hw2 : 0 < (fw.Allow c2 t).2.windowSize := by rw [Allow_windowSize]; exact hws
    have hclock2 : ∀ p ∈ rest, p.1 = c → Truncate w (fw.Allow c2 t).2.windowSize ≤ p.2 := by
      rw [Allow_windowSize]
      exact fun p hp => hclock p (List.mem_cons_of_mem _ hp)
    intro e he hec hin
    rw [trace_cons, List.mem_cons] at he
    by_cases hcc : c2 = c
    · subst hcc
      obtain ⟨⟨st2, hs2, ht2, hq2⟩, hden⟩ := Allow_at_quota fw c2 t st hl hws hc hs hq
      have htW : Truncate w fw.windowSize ≤ t := hclock (c2, t) (List.mem_cons_self _ _) rfl
      rcases he with he | he
      · subst he
        apply hden
        have := Truncate_eq_of_inWindow hws hin
        simp only at this
        omega
      · have := ih (fw.Allow c2 t).2 hl2 hw2
          ⟨st2, hs2, by rw [Allow_windowSize, ht2]; exact htW, by rw [Allow_limit]; exact hq2⟩
          hclock2 e he hec
        rw [Allow_windowSize] at this
        exact this hin
    · rcases he with he | he
      · subst he
        exact absurd hec hcc
      · have := ih (fw.Allow c2 t).2 hl2 hw2
          ⟨st, by rw [Allow_store_other fw t hcc]; exact hs,
            by rw [Allow_windowSize]; exact htime, by rw [Allow_limit]; exact hq⟩
          hclock2 e he hec
        rw [Allow_windowSize] at this
        exact this hin

/-- When every call of the client in the window is denied, none is admitted there. -/
theorem admittedIn_eq_zero_of_denied (d : Int) (c : String) (w : Int)
    (tr : List ((String × Int) × Result))
    (h : ∀ e ∈ tr, e.1.1 = c → inWindow d w e.1.2 →
      e.2 = (false, some RlError.ErrRateLimitExceeded)) :
    admittedIn d c w tr = 0 := by
  unfold admittedIn
  rw [List.length_eq_zero, List.filter_eq_nil_iff]
  intro e he
  simp only [decide_eq_true_eq, not_and]
  intro h1 h2
  rw [h e he h1 h2]
  simp

/-! ## Single-call properties -/

/-- C4: `Allow("")` returns `(false, ErrInvalidClientID)` and the limiter after the
call, in particular its whole client-state store, is the limiter before the call,
for every limit, window size, store content and clock reading. -/
theorem C4_empty_identifier (fw : FixedWindow) (now : Int) :
    fw.Allow "" now = ((false, some RlError.ErrInvalidClientID), fw) := by
  have hz : "".utf8ByteSize = 0 := by decide
  unfold FixedWindow.Allow
  rw [if_pos hz]

/-- C7: the result of `Allow` is one of `(true, nil)`, `(false, ErrInvalidClientID)`
and `(false, ErrRateLimitExceeded)`; admitted is true exactly when the error is nil,
and the error is `ErrInvalidClientID` exactly when the client identifier is empty. -/
theorem C7_result_shape (fw : FixedWindow) (clientID : String) (now : Int) :
    ((fw.Allow clientID now).1.1 = true ↔ (fw.Allow clientID now).1.2 = none) ∧
    ((fw.Allow clientID now).1 = (true, none) ∨
      (fw.Allow clientID now).1 = (false, some RlError.ErrInvalidClientID) ∨
      (fw.Allow clientID now).1 = (false, some RlError.ErrRateLimitExceeded)) ∧
    ((fw.Allow clientID now).1.2 = some RlError.ErrInvalidClientID ↔ clientID = "") := by
  by_cases hz : clientID.utf8ByteSize = 0
  · have hc : clientID = "" := (utf8ByteSize_eq_zero clientID).mp hz
    subst hc
    simp [Allow_empty]
  · have hc : clientID ≠ "" := fun e => hz ((utf8ByteSize_eq_zero clientID).mpr e)
    unfold FixedWindow.Allow
    cases hs : fw.store clientID with
    | none => simp [hz, hc]
    | some st =>
      simp only [hz, if_false]
      split_ifs <;> simp [hc]

/-- C8: when `Allow` returns admitted = false (with either error), every client,
the caller included, has the same stored request count (and the same presence in
the store) after the call as before it. -/
theorem C8_denied_keeps_count (fw : FixedWindow) (clientID : String) (now : Int)
    (other : String) (hdenied : (fw.Allow clientID now).1.1 = false) :
    ((fw.Allow clientID now).2.store other).map ClientState.currReqNum =
      (fw.store other).map ClientState.currReqNum := by
  by_cases hz : clientID.utf8ByteSize = 0
  · simp [FixedWindow.Allow, hz]
  · by_cases ho : clientID = other
    · subst ho
      unfold FixedWindow.Allow at hdenied ⊢
      cases hs : fw.store clientID with
      | none => simp [hz, hs] at hdenied
      | some st =>
        simp only [hz, hs, if_false] at hdenied ⊢
        split_ifs at hdenied ⊢ <;> simp_all [Store.set]
    · rw [Allow_store_other fw now ho]

/-- Witness for C8 (the `ExactLimit` scenario: limit 1, window 5 s, second call
denied, count still 1). -/
theorem C8_denied_keeps_count_witness :
    ((run (NewFixedWindow 1 5000000000) [("user123", 63082281600000000000)]).2.Allow
        "user123" 63082281600000000000).1.1 = false ∧
    (((run (NewFixedWindow 1 5000000000) [("user123", 63082281600000000000)]).2.Allow
        "user123" 63082281600000000000).2.store "user123").map ClientState.currReqNum =
      ((run (NewFixedWindow 1 5000000000) [("user123", 63082281600000000000)]).2.store
        "user123").map ClientState.currReqNum :=
  ⟨by decide, C8_denied_keeps_count _ "user123" 63082281600000000000 "user123" (by decide)⟩

/-- C3: if a non-empty client has stored timestamp `prev` (and any count) and
`Allow` is called at `now` with `now - prev >= windowSize > 0`, then `prev` is
strictly before `floor(now, windowSize)`, the call returns `(true, nil)`, and the
stored entry of the client becomes count 1 with timestamp `now`. -/
theorem C3_window_reset (fw : FixedWindow) (clientID : String) (st : ClientState) (now : Int)
    (hws : 0 < fw.windowSize) (hc : clientID ≠ "") (hst : fw.store clientID = some st)
    (helapsed : fw.windowSize ≤ now - st.currTime) :
    st.currTime < Truncate now fw.windowSize ∧
    (fw.Allow clientID now).1 = (true, none) ∧
    (fw.Allow clientID now).2.store clientID = some { currReqNum := 1, currTime := now } := by
  have hlt : st.currTime < Truncate now fw.windowSize := by
    have := lt_Truncate_add hws now
    omega
  refine ⟨hlt, ?_, ?_⟩
  · rw [Allow_reset now hc hst hlt]
  · rw [Allow_reset now hc hst hlt]
    exact Store.set_same _ _ _

/-- Witness for C3 (limit 3, window 2 s, quota exhausted by four calls, then
2.1 s elapse). -/
theorem C3_window_reset_witness :
    (run (NewFixedWindow 3 2000000000)
        [("user123", 63082281600000000000), ("user123", 63082281600000000000),
         ("user123", 63082281600000000000), ("user123", 63082281600000000000)]).1
      = [(true, none), (true, none), (true, none),
         (false, some RlError.ErrRateLimitExceeded)] ∧
    ((run (NewFixedWindow 3 2000000000)
        [("user123", 63082281600000000000), ("user123", 63082281600000000000),
         ("user123", 63082281600000000000), ("user123", 63082281600000000000)]).2.Allow
        "user123" 63082281602100000000).1 = (true, none) ∧
    ((run (NewFixedWindow 3 2000000000)
        [("user123", 63082281600000000000), ("user123", 63082281600000000000),
         ("user123", 63082281600000000000), ("user123", 63082281600000000000)]).2.Allow
        "user123" 63082281602100000000).2.store "user123"
      = some { currReqNum := 1, currTime := 63082281602100000000 } :=
  ⟨by decide,
    (C3_window_reset
      (run (NewFixedWindow 3 2000000000)
        [("user123", 63082281600000000000), ("user123", 63082281600000000000),
         ("user123", 63082281600000000000), ("user123", 63082281600000000000)]).2
      "user123" { currReqNum := 3, currTime := 63082281600000000000 } 63082281602100000000
      (by decide) (by decide) (by decide) (by decide)).2⟩

/-- C10: if a non-empty client has stored timestamp `prev` and `Allow` is called at
`now` with `prev` after `windowEnd = floor(now, windowSize) + windowSize`
(`windowSize > 0`), the call returns `(false, ErrRateLimitExceeded)`, whatever the
stored count and the limit are. -/
theorem C10_fail_closed_on_skew (fw : FixedWindow) (clientID : String) (st : ClientState)
    (now : Int) (hws : 0 < fw.windowSize) (hc : clientID ≠ "")
    (hst : fw.store clientID = some st)
    (hskew : Truncate now fw.windowSize + fw.windowSize < st.currTime) :
    (fw.Allow clientID now).1 = (false, some RlError.ErrRateLimitExceeded) := by
  rw [Allow_skew now hc hst hws (le_of_lt hskew)]

/-- Witness for C10 (limit 5, window 10 s, one call at 100 s, then the clock reads
50 s). -/
theorem C10_fail_closed_on_skew_witness :
    ((run (NewFixedWindow 5 10000000000) [("a", 100000000000)]).2.Allow
        "a" 50000000000).1 = (false, some RlError.ErrRateLimitExceeded) :=
  C10_fail_closed_on_skew (run (NewFixedWindow 5 10000000000) [("a", 100000000000)]).2
    "a" { currReqNum := 1, currTime := 100000000000 } 50000000000
    (by decide) (by decide) (by decide) (by decide)

/-! ## Client isolation -/

/-- C6: for distinct clients `A` and `B`, `Allow(A)` leaves the stored entry of `B`
(presence, count and timestamp) unchanged; and in every interleaved sequence of
timestamped calls on a fresh limiter, the results returned for `B` are those of
running only the calls of `B`, with the same timestamps, on a fresh limiter with the
same limit and window size. -/
theorem C6_client_isolation (fw : FixedWindow) (A B : String) (now : Int)
    (limit windowSize : Int) (calls : List (String × Int)) (hAB : A ≠ B) :
    (fw.Allow A now).2.store B = fw.store B ∧
    resultsFor B (trace (NewFixedWindow limit windowSize) calls) =
      (run (NewFixedWindow limit windowSize) (calls.filter fun p => decide (p.1 = B))).1 :=
  ⟨Allow_store_other fw now hAB, resultsFor_trace_eq B calls rfl rfl rfl⟩

/-- Witness for C6 (the `MultipleClients` scenario: limit 3, window 10 s; alice, bob
and charlie each make four calls; bob is admitted three times and denied on the
fourth, as on a limiter of his own). -/
theorem C6_client_isolation_witness :
    ((NewFixedWindow 3 10000000000).Allow "alice" 63082281600000000000).2.store "bob" =
      (NewFixedWindow 3 10000000000).store "bob" ∧
    resultsFor "bob" (trace (NewFixedWindow 3 10000000000)
        [("alice", 63082281600000000000), ("alice", 63082281600000000000),
         ("alice", 63082281600000000000), ("alice", 63082281600000000000),
         ("bob", 63082281600000000000), ("bob", 63082281600000000000),
         ("bob", 63082281600000000000), ("bob", 63082281600000000000),
         ("charlie", 63082281600000000000), ("charlie", 63082281600000000000),
         ("charlie", 63082281600000000000), ("charlie", 63082281600000000000)]) =
      (run (NewFixedWindow 3 10000000000)
        (List.filter (fun p => decide (p.1 = "bob"))
        [("alice", 63082281600000000000), ("alice", 63082281600000000000),
         ("alice", 63082281600000000000), ("alice", 63082281600000000000),
         ("bob", 63082281600000000000), ("bob", 63082281600000000000),
         ("bob", 63082281600000000000), ("bob", 63082281600000000000),
         ("charlie", 63082281600000000000), ("charlie", 63082281600000000000),
         ("charlie", 63082281600000000000), ("charlie", 63082281600000000000)])).1 ∧
    resultsFor "bob" (trace (NewFixedWindow 3 10000000000)
        [("alice", 63082281600000000000), ("alice", 63082281600000000000),
         ("alice", 63082281600000000000), ("alice", 63082281600000000000),
         ("bob", 63082281600000000000), ("bob", 63082281600000000000),
         ("bob", 63082281600000000000), ("bob", 63082281600000000000),
         ("charlie", 63082281600000000000), ("charlie", 63082281600000000000),
         ("charlie", 63082281600000000000), ("charlie", 63082281600000000000)]) =
      [(true, none), (true, none), (true, none),
       (false, some RlError.ErrRateLimitExceeded)] :=
  ⟨(C6_client_isolation (NewFixedWindow 3 10000000000) "alice" "bob" 63082281600000000000
      3 10000000000 [] (by decide)).1,
    (C6_client_isolation (NewFixedWindow 3 10000000000) "alice" "bob" 63082281600000000000
      3 10000000000 _ (by decide)).2,
    by decide⟩

/-! ## Quota within one window -/

/-- C1: for `limit >= 1`, `windowSize > 0` and a non-empty client that is unknown to
the store or whose stored timestamp is before the start of the aligned window
containing `now`: when `n` consecutive `Allow` calls of that client are made at
timestamps all inside that window, call `i + 1` (`i` from 0) returns `(true, nil)`
when `i + 1 <= limit` and `(false, ErrRateLimitExceeded)` otherwise; so exactly
`min n limit` calls are admitted and `n - min n limit` are denied with
`ErrRateLimitExceeded`. -/
theorem C1_quota_within_one_window (fw : FixedWindow) (clientID : String) (now : Int)
    (ts : List Int) (hlimit : 1 ≤ fw.limit) (hws : 0 < fw.windowSize) (hc : clientID ≠ "")
    (hfresh : fw.store clientID = none ∨
      ∃ st, fw.store clientID = some st ∧ st.currTime < Truncate now fw.windowSize)
    (hts : ∀ t ∈ ts, inWindow fw.windowSize now t) :
    (runClient fw clientID ts).1 = List.map (fun (i : Nat) =>
        if (i : Int) + 1 ≤ fw.limit then ((true, none) : Result)
        else (false, some RlError.ErrRateLimitExceeded)) (List.range ts.length) ∧
    (((runClient fw clientID ts).1.count (true, none) : Nat) : Int)
      = min (ts.length : Int) fw.limit ∧
    (((runClient fw clientID ts).1.count (false, some RlError.ErrRateLimitExceeded) : Nat) : Int)
      = (ts.length : Int) - min (ts.length : Int) fw.limit := by
  have h := runClient_fresh_window fw clientID now ts hlimit hws hc hfresh hts
  refine ⟨h, ?_, ?_⟩
  · rw [h]; exact count_admitted_range fw.limit ts.length (by omega)
  · rw [h]; exact count_denied_range fw.limit ts.length (by omega)

/-- Witness for C1 (the `BasicRateLimiting` scenario: limit 5, window 10 s, seven
calls 100 ms apart: five admitted, two denied). -/
theorem C1_quota_within_one_window_witness :
    (runClient (NewFixedWindow 5 10000000000) "user123"
        [63082281600000000000, 63082281600100000000, 63082281600200000000,
         63082281600300000000, 63082281600400000000, 63082281600500000000,
         63082281600600000000]).1 =
      [(true, none), (true, none), (true, none), (true, none), (true, none),
       (false, some RlError.ErrRateLimitExceeded),
       (false, some RlError.ErrRateLimitExceeded)] ∧
    (((runClient (NewFixedWindow 5 10000000000) "user123"
        [63082281600000000000, 63082281600100000000, 63082281600200000000,
         63082281600300000000, 63082281600400000000, 63082281600500000000,
         63082281600600000000]).1.count (true, none) : Nat) : Int) = 5 ∧
    (((runClient (NewFixedWindow 5 10000000000) "user123"
        [63082281600000000000, 63082281600100000000, 63082281600200000000,
         63082281600300000000, 63082281600400000000, 63082281600500000000,
         63082281600600000000]).1.count
          (false, some RlError.ErrRateLimitExceeded) : Nat) : Int) = 2 :=
  C1_quota_within_one_window (NewFixedWindow 5 10000000000) "user123" 63082281600000000000
    [63082281600000000000, 63082281600100000000, 63082281600200000000,
     63082281600300000000, 63082281600400000000, 63082281600500000000,
     63082281600600000000]
    (by decide) (by decide) (by decide) (Or.inl rfl) (by decide)

/-! ## Per-window admission bound -/

/-- C2: for `limit >= 1` and `windowSize > 0`, in every finite sequence of `Allow`
calls (any mix of clients) on a limiter created by `NewFixedWindow` whose timestamps
are non-decreasing, for every client and every clock-aligned window (the one
containing any instant `w`) the calls of that client with timestamp in that window
that return admitted = true number at most `limit`. -/
theorem C2_per_window_admission_bound (limit windowSize : Int) (calls : List (String × Int))
    (clientID : String) (w : Int) (hlimit : 1 ≤ limit) (hws : 0 < windowSize)
    (hmono : List.Sorted (fun a b => a ≤ b) (calls.map Prod.snd)) :
    (admittedIn windowSize clientID w (trace (NewFixedWindow limit windowSize) calls) : Int)
      ≤ limit := by
  have h := admitted_bound (NewFixedWindow limit windowSize) clientID w calls hlimit hws hmono
    (fun st hs => by simp [NewFixedWindow] at hs)
  have hu : usedIn (NewFixedWindow limit windowSize) clientID w = 0 := rfl
  rw [hu] at h
  simpa [NewFixedWindow] using h

/-- Witness for C2 (limit 2, window 10 s; two clients, clock crossing a window
boundary: client a is admitted twice in the first window and once in the second). -/
theorem C2_per_window_admission_bound_witness :
    (admittedIn 10000000000 "a" 63082281600000000000
      (trace (NewFixedWindow 2 10000000000)
        [("a", 63082281600000000000), ("b", 63082281601000000000),
         ("a", 63082281602000000000), ("a", 63082281603000000000),
         ("b", 63082281604000000000), ("a", 63082281609999999999),
         ("a", 63082281610000000000)]) : Int) ≤ 2 ∧
    admittedIn 10000000000 "a" 63082281600000000000
      (trace (NewFixedWindow 2 10000000000)
        [("a", 63082281600000000000), ("b", 63082281601000000000),
         ("a", 63082281602000000000), ("a", 63082281603000000000),
         ("b", 63082281604000000000), ("a", 63082281609999999999),
         ("a", 63082281610000000000)]) = 2 :=
  ⟨C2_per_window_admission_bound 2 10000000000 _ "a" 63082281600000000000
      (by decide) (by decide) (by decide),
    by decide⟩

/-! ## Zero limit -/

/-- C5, as stated, fails when the clock moves back before the window: with limit 0
and a 10 s window, calls of one fresh client at 10 s, 5 s and 12 s return admitted,
denied (clock skew) and admitted, although 12 s lies in the window of the first
call. -/
theorem C5_zero_limit_counterexample :
    (run (NewFixedWindow 0 10000000000)
        [("a", 10000000000), ("a", 5000000000), ("a", 12000000000)]).1
      = [(true, none), (false, some RlError.ErrRateLimitExceeded), (true, none)] ∧
    inWindow 10000000000 10000000000 12000000000 ∧
    admittedIn 10000000000 "a" 10000000000
      (trace (NewFixedWindow 0 10000000000)
        [("a", 10000000000), ("a", 5000000000), ("a", 12000000000)]) = 2 := by
  decide

/-- C5 (amended): for limit 0, `windowSize > 0` and a non-empty client with no stored
state, the first `Allow` (at `t1`) returns `(true, nil)`; in every sequence of later
calls (any clients, any timestamps) in which no call of that client has a timestamp
before the start of the window of `t1`, every call of the client whose timestamp lies
in that window returns `(false, ErrRateLimitExceeded)`; so exactly one request of the
client is admitted in that window. -/
theorem C5_zero_limit (fw : FixedWindow) (clientID : String) (t1 : Int)
    (calls : List (String × Int)) (hlimit : fw.limit = 0) (hws : 0 < fw.windowSize)
    (hc : clientID ≠ "") (hnone : fw.store clientID = none)
    (hclock : ∀ p ∈ calls, p.1 = clientID → Truncate t1 fw.windowSize ≤ p.2) :
    (fw.Allow clientID t1).1 = (true, none) ∧
    (∀ e ∈ trace (fw.Allow clientID t1).2 calls, e.1.1 = clientID →
      inWindow fw.windowSize t1 e.1.2 → e.2 = (false, some RlError.ErrRateLimitExceeded)) ∧
    admittedIn fw.windowSize clientID t1 (trace fw ((clientID, t1) :: calls)) = 1 := by
  have hfirst := Allow_none t1 hc hnone
  have hden : ∀ e ∈ trace (fw.Allow clientID t1).2 calls, e.1.1 = clientID →
      inWindow fw.windowSize t1 e.1.2 → e.2 = (false, some RlError.ErrRateLimitExceeded) := by
    have := at_quota_denied (fw.Allow clientID t1).2 clientID t1 calls
      (by rw [Allow_limit]; omega) (by rw [Allow_windowSize]; exact hws) hc
      ⟨{ currReqNum := 1, currTime := t1 }, by rw [hfirst]; exact Store.set_same _ _ _,
        by rw [Allow_windowSize]; exact Truncate_le hws t1, by rw [Allow_limit]; show fw.limit ≤ 1; omega⟩
      (by rw [Allow_windowSize]; exact hclock)
    rw [Allow_windowSize] at this
    exact this
  refine ⟨by rw [hfirst], hden, ?_⟩
  rw [trace_cons, admittedIn_cons, admittedIn_eq_zero_of_denied _ _ _ _ hden]
  have hin : inWindow fw.windowSize t1 t1 := ⟨Truncate_le hws t1, lt_Truncate_add hws t1⟩
  simp [hfirst, hin]

/-- Witness for C5 (the `ZeroLimit` scenario: limit 0, window 10 s; the first call is
admitted, two later calls in the window are denied, another client in between). -/
theorem C5_zero_limit_witness :
    ((NewFixedWindow 0 10000000000).Allow "user123" 63082281600000000000).1 = (true, none) ∧
    (run ((NewFixedWindow 0 10000000000).Allow "user123" 63082281600000000000).2
        [("user123", 63082281600000000000), ("bob", 63082281601000000000),
         ("user123", 63082281602000000000)]).1
      = [(false, some RlError.ErrRateLimitExceeded), (true, none),
         (false, some RlError.ErrRateLimitExceeded)] ∧
    admittedIn 10000000000 "user123" 63082281600000000000
      (trace (NewFixedWindow 0 10000000000)
        [("user123", 63082281600000000000), ("user123", 63082281600000000000),
         ("bob", 63082281601000000000), ("user123", 63082281602000000000)]) = 1 :=
  ⟨(C5_zero_limit (NewFixedWindow 0 10000000000) "user123" 63082281600000000000
      [("user123", 63082281600000000000), ("bob", 63082281601000000000),
       ("user123", 63082281602000000000)]
      rfl (by decide) (by decide) rfl (by decide)).1,
    by decide,
    (C5_zero_limit (NewFixedWindow 0 10000000000) "user123" 63082281600000000000
      [("user123", 63082281600000000000), ("bob", 63082281601000000000),
       ("user123", 63082281602000000000)]
      rfl (by decide) (by decide) rfl (by decide)).2.2⟩

/-! ## Idempotence of denial -/

/-- C9, as stated, fails after a clock-skew denial: on the limiter reached from
`NewFixedWindow(5, 10 s)` by one call at 100 s, the call at 50 s is denied (clock
skew) and the re-issued call at 51 s, in the same aligned window, is admitted. -/
theorem C9_idempotence_of_denial_counterexample :
    ((run (NewFixedWindow 5 10000000000) [("a", 100000000000)]).2.Allow
        "a" 50000000000).1 = (false, some RlError.ErrRateLimitExceeded) ∧
    inWindow 10000000000 50000000000 51000000000 ∧
    (((run (NewFixedWindow 5 10000000000) [("a", 100000000000)]).2.Allow
        "a" 50000000000).2.Allow "a" 51000000000).1 = (true, none) := by
  decide

/-- C9 (amended): for every limiter state (reachable or not) with `windowSize > 0`,
every non-empty client and every time `t`, if `Allow` at `t` is denied and the
client's stored timestamp is before the end of the aligned window of `t` (the denial
is for quota, not for clock skew), then re-issuing `Allow` at any time `t2` in the
same aligned window as `t` is denied again with the same error. -/
theorem C9_idempotence_of_denial (fw : FixedWindow) (clientID : String) (t t2 : Int)
    (hws : 0 < fw.windowSize) (hc : clientID ≠ "")
    (hdenied : (fw.Allow clientID t).1.1 = false)
    (hnoskew : ∀ st, fw.store clientID = some st →
      st.currTime < Truncate t fw.windowSize + fw.windowSize)
    (hsame : inWindow fw.windowSize t t2) :
    ((fw.Allow clientID t).2.Allow clientID t2).1 = (fw.Allow clientID t).1 ∧
    (fw.Allow clientID t).1 = (false, some RlError.ErrRateLimitExceeded) := by
  have hT : Truncate t2 fw.windowSize = Truncate t fw.windowSize :=
    Truncate_eq_of_inWindow hws hsame
  cases hs : fw.store clientID with
  | none =>
    rw [Allow_none t hc hs] at hdenied
    simp at hdenied
  | some st =>
    have h2 := hnoskew st hs
    by_cases h1 : st.currTime < Truncate t fw.windowSize
    · rw [Allow_reset t hc hs h1] at hdenied
      simp at hdenied
    · by_cases hq : st.currReqNum < fw.limit
      · rw [Allow_same_ok t hc hs (not_lt.mp h1) h2 hq] at hdenied
        simp at hdenied
      · rw [Allow_same_deny t hc hs (not_lt.mp h1) h2 (not_lt.mp hq)]
        refine ⟨?_, rfl⟩
        have h3 := @Allow_same_deny
          { fw with
            store := (fw.store.set clientID { currReqNum := st.currReqNum, currTime := t }) }
          clientID { currReqNum := st.currReqNum, currTime := t } t2 hc
          (Store.set_same _ _ _)
          (by show Truncate t2 fw.windowSize ≤ t; rw [hT]; exact Truncate_le hws t)
          (by show t < Truncate t2 fw.windowSize + fw.windowSize; rw [hT]
              exact lt_Truncate_add hws t)
          (not_lt.mp hq)
        simp only at h3 ⊢
        rw [h3]

/-- Witness for C9 (the `ExactLimit` scenario: limit 1, window 5 s; the second call
is denied for quota and so is the call re-issued 100 ms later). -/
theorem C9_idempotence_of_denial_witness :
    (((run (NewFixedWindow 1 5000000000) [("user123", 63082281600000000000)]).2.Allow
        "user123" 63082281600000000000).2.Allow "user123" 63082281600100000000).1 =
      ((run (NewFixedWindow 1 5000000000) [("user123", 63082281600000000000)]).2.Allow
        "user123" 63082281600000000000).1 ∧
    ((run (NewFixedWindow 1 5000000000) [("user123", 63082281600000000000)]).2.Allow
        "user123" 63082281600000000000).1 = (false, some RlError.ErrRateLimitExceeded) :=
  C9_idempotence_of_denial
    (run (NewFixedWindow 1 5000000000) [("user123", 63082281600000000000)]).2
    "user123" 63082281600000000000 63082281600100000000
    (by decide) (by decide) (by decide)
    (fun st hs => by
      have e : st = { currReqNum := 1, currTime := 63082281600000000000 } :=
        (Option.some.inj hs).symm
      subst e
      decide)
    (by decide)

/-! ## The facade: construction -/

theorem loop_cons_none {r r2 : RateLimit} (cerr : Option GoError) {opt : RateLimitOption}
    (rest : List RateLimitOption) (h : opt r = (r2, none)) :
    NewRateLimit.loop r cerr (opt :: rest) = NewRateLimit.loop r2 cerr rest := by
  simp only [NewRateLimit.loop, h]

theorem loop_cons_some {r r2 : RateLimit} (cerr : Option GoError) {opt : RateLimitOption}
    {err : GoError} (rest : List RateLimitOption) (h : opt r = (r2, some err)) :
    NewRateLimit.loop r cerr (opt :: rest) =
      NewRateLimit.loop r2 (errorsJoin [cerr, some err]) rest := by
  simp only [NewRateLimit.loop, h]

theorem loop_append (r : RateLimit) (cerr : Option GoError) (xs ys : List RateLimitOption) :
    NewRateLimit.loop r cerr (xs ++ ys) =
      NewRateLimit.loop (NewRateLimit.loop r cerr xs).1 (NewRateLimit.loop r cerr xs).2 ys := by
  induction xs generalizing r cerr with
  | nil => rfl
  | cons opt rest ih =>
    rw [List.cons_append]
    rcases h : opt r with ⟨r2, _ | err⟩
    · rw [loop_cons_none cerr _ h, loop_cons_none cerr _ h]
      exact ih r2 cerr
    · rw [loop_cons_some cerr _ h, loop_cons_some cerr _ h]
      exact ih r2 _

theorem loop_state (r : RateLimit) (cerr : Option GoError) (opts : List RateLimitOption) :
    (NewRateLimit.loop r cerr opts).1 = (applyInOrder r opts).1 := by
  induction opts generalizing r cerr with
  | nil => rfl
  | cons opt rest ih =>
    unfold NewRateLimit.loop applyInOrder
    rcases h : opt r with ⟨r2, _ | err⟩
    · exact ih r2 cerr
    · exact ih r2 _

theorem joinMessages_cons_append (x y : String) (ms : List String) :
    joinMessages ((x ++ "\n" ++ y) :: ms) = x ++ "\n" ++ joinMessages (y :: ms) := by
  cases ms with
  | nil => rfl
  | cons m rest =>
    simp only [joinMessages, String.append_assoc]

/-- The loop started with an accumulated error: the result is an error wrapping the
accumulated one and then the non-nil errors of the options, in order. -/
theorem loop_error_some (r : RateLimit) (a : GoError) (opts : List RateLimitOption) :
    ∃ e, (NewRateLimit.loop r (some a) opts).2 = some e ∧
      e.leaves = a.leaves ++ GoError.leavesOfList ((applyInOrder r opts).2.filterMap id) ∧
      e.Error = joinMessages (a.Error ::
        ((applyInOrder r opts).2.filterMap id).map GoError.Error) := by
  induction opts generalizing r a with
  | nil => exact ⟨a, rfl, by simp [applyInOrder, GoError.leavesOfList], rfl⟩
  | cons opt rest ih =>
    unfold NewRateLimit.loop applyInOrder
    rcases h : opt r with ⟨r2, _ | err⟩
    · obtain ⟨e, h1, h2, h3⟩ := ih r2 a
      exact ⟨e, h1, by simpa using h2, by simpa using h3⟩
    · obtain ⟨e, h1, h2, h3⟩ := ih r2 (GoError.join [a, err])
      refine ⟨e, h1, ?_, ?_⟩
      · simp only [List.filterMap_cons_some, id_eq, GoError.leavesOfList]
        rw [h2]
        simp [GoError.leaves, GoError.leavesOfList]
      · simp only [List.filterMap_cons_some, id_eq, List.map_cons]
        rw [h3]
        have : (GoError.join [a, err]).Error = a.Error ++ "\n" ++ err.Error := by
          simp [GoError.Error, GoError.joinedMessage]
        rw [this, joinMessages_cons_append]
        rfl

/-- The loop started with a nil accumulated error. -/
theorem loop_error_none (r : RateLimit) (opts : List RateLimitOption) :
    ((NewRateLimit.loop r none opts).2 = none ↔ ∀ e ∈ (applyInOrder r opts).2, e = none) ∧
    ∀ e, (NewRateLimit.loop r none opts).2 = some e →
      e.leaves = GoError.leavesOfList ((applyInOrder r opts).2.filterMap id) ∧
      e.Error = joinMessages (((applyInOrder r opts).2.filterMap id).map GoError.Error) := by
  induction opts generalizing r with
  | nil =>
    constructor
    · simp [NewRateLimit.loop, applyInOrder]
    · intro e he
      simp [NewRateLimit.loop] at he
  | cons opt rest ih =>
    unfold NewRateLimit.loop applyInOrder
    rcases h : opt r with ⟨r2, _ | err⟩
    · obtain ⟨h1, h2⟩ := ih r2
      constructor
      · simpa using h1
      · intro e he
        simpa using h2 e he
    · obtain ⟨e, h1, h2, h3⟩ := loop_error_some r2 (GoError.join [err]) rest
      have hj : errorsJoin [none, some err] = some (GoError.join [err]) := rfl
      simp only [hj]
      constructor
      · rw [h1]
        simp
      · intro e2 he2
        rw [h1] at he2
        cases he2
        constructor
        · rw [h2]
          simp [GoError.leaves, GoError.leavesOfList]
        · rw [h3]
          simp [GoError.Error, GoError.joinedMessage, joinMessages]

/-- Options built by `WithFixedWindow` and `WithTokenBucket` never return an error. -/
theorem loop_calls_error (r : RateLimit) (cerr : Option GoError) (calls : List OptionCall) :
    (NewRateLimit.loop r cerr (calls.map OptionCall.build)).2 = cerr := by
  induction calls generalizing r with
  | nil => rfl
  | cons c rest ih =>
    cases c with
    | fixedWindow l d => exact ih _
    | tokenBucket => exact ih _

theorem loop_calls_tokenBucket (r : RateLimit) (cerr : Option GoError) (calls : List OptionCall)
    (h : ∀ c ∈ calls, c = OptionCall.tokenBucket) :
    NewRateLimit.loop r cerr (calls.map OptionCall.build) = (r, cerr) := by
  induction calls generalizing r with
  | nil => rfl
  | cons c rest ih =>
    have hc : c = OptionCall.tokenBucket := h c (List.mem_cons_self _ _)
    subst hc
    exact ih r (fun c hc => h c (List.mem_cons_of_mem _ hc))

/-- After the last `WithFixedWindow` option the facade holds the limiter that option
created and the label "FixedWindow". -/
theorem loop_calls_last (r : RateLimit) (cerr : Option GoError) (pre post : List OptionCall)
    (l d : Int) (hpost : ∀ c ∈ post, c = OptionCall.tokenBucket) :
    NewRateLimit.loop r cerr ((pre ++ OptionCall.fixedWindow l d :: post).map OptionCall.build) =
      ({ rl := some (NewFixedWindow l d), rlType := "FixedWindow" }, cerr) := by
  rw [List.map_append, loop_append, loop_calls_error, List.map_cons]
  exact loop_calls_tokenBucket _ cerr post hpost

theorem exists_last_fixedWindow (calls : List OptionCall)
    (h : ∃ l d, OptionCall.fixedWindow l d ∈ calls) :
    ∃ pre l d post, calls = pre ++ OptionCall.fixedWindow l d :: post ∧
      ∀ c ∈ post, c = OptionCall.tokenBucket := by
  induction calls with
  | nil =>
    obtain ⟨l, d, hm⟩ := h
    simp at hm
  | cons c rest ih =>
    by_cases hr : ∃ l d, OptionCall.fixedWindow l d ∈ rest
    · obtain ⟨pre, l, d, post, he, hp⟩ := ih hr
      exact ⟨c :: pre, l, d, post, by rw [he]; rfl, hp⟩
    · have hall : ∀ x ∈ rest, x = OptionCall.tokenBucket := by
        intro x hx
        cases x with
        | fixedWindow l d => exact absurd ⟨l, d, hx⟩ hr
        | tokenBucket => rfl
      obtain ⟨l, d, hm⟩ := h
      rcases List.mem_cons.mp hm with hm | hm
      · exact ⟨[], l, d, rest, by rw [← hm]; rfl, hall⟩
      · exact absurd ⟨l, d, hm⟩ hr

theorem runFacade_some (fw : FixedWindow) (label : String) (calls : List (String × Int)) :
    runFacade { rl := some fw, rlType := label } calls = Except.ok (run fw calls).1 := by
  induction calls generalizing fw with
  | nil => rfl
  | cons p rest ih =>
    obtain ⟨c, t⟩ := p
    simp only [runFacade, RateLimit.Allow, run_cons]
    rw [ih]

/-! ## Further facts about `Allow` and runs -/

/-- The entry a call of a non-empty client leaves for that client: count 1, or the
old count plus one (which was below the limit), or the old count; always with the
call time. -/
theorem Allow_store_self_cases (fw : FixedWindow) (c : String) (t : Int) (hc : c ≠ "") :
    (fw.Allow c t).2.store c = some { currReqNum := 1, currTime := t } ∨
    (∃ st, fw.store c = some st ∧ st.currReqNum < fw.limit ∧
      (fw.Allow c t).2.store c = some { currReqNum := st.currReqNum + 1, currTime := t }) ∨
    (∃ st, fw.store c = some st ∧
      (fw.Allow c t).2.store c = some { currReqNum := st.currReqNum, currTime := t }) := by
  have hz : ¬ c.utf8ByteSize = 0 := fun e => hc ((utf8ByteSize_eq_zero c).mp e)
  unfold FixedWindow.Allow
  cases hs : fw.store c with
  | none =>
    left
    simp [hz, Store.set]
  | some st =>
    simp only [hz, if_false]
    split_ifs with h1 h2 h3
    · left; exact Store.set_same _ _ _
    · right; right; exact ⟨st, rfl, Store.set_same _ _ _⟩
    · right; left; exact ⟨st, rfl, not_le.mp h3, Store.set_same _ _ _⟩
    · right; right; exact ⟨st, rfl, Store.set_same _ _ _⟩

theorem Allow_store_self (fw : FixedWindow) (c : String) (t : Int) (hc : c ≠ "") :
    ∃ st, (fw.Allow c t).2.store c = some st ∧ st.currTime = t := by
  rcases Allow_store_self_cases fw c t hc with h | ⟨_, _, _, h⟩ | ⟨_, _, h⟩
  · exact ⟨_, h, rfl⟩
  · exact ⟨_, h, rfl⟩
  · exact ⟨_, h, rfl⟩

theorem Allow_store_empty (fw : FixedWindow) (c : String) (t : Int) :
    (fw.Allow c t).2.store "" = fw.store "" := by
  by_cases hc : c = ""
  · subst hc
    rw [Allow_empty]
  · exact Allow_store_other fw t hc

/-- One call keeps every count between 1 and `max limit 1`, for any limit, window
size and clock reading. -/
theorem Allow_count_bounds (fw : FixedWindow) (c2 : String) (t : Int)
    (h : ∀ c st, fw.store c = some st → 1 ≤ st.currReqNum ∧ st.currReqNum ≤ max fw.limit 1) :
    ∀ c st, (fw.Allow c2 t).2.store c = some st →
      1 ≤ st.currReqNum ∧ st.currReqNum ≤ max fw.limit 1 := by
  intro c st hst
  by_cases hcc : c2 = c
  · subst hcc
    by_cases hc : c2 = ""
    · subst hc
      rw [Allow_empty] at hst
      exact h _ st hst
    · rcases Allow_store_self_cases fw c2 t hc with h1 | ⟨st0, hs0, hlt, h1⟩ | ⟨st0, hs0, h1⟩
      · rw [h1] at hst
        cases hst
        exact ⟨le_refl _, le_max_right _ _⟩
      · rw [h1] at hst
        cases hst
        have := h c2 st0 hs0
        constructor
        · show 1 ≤ st0.currReqNum + 1
          omega
        · show st0.currReqNum + 1 ≤ max fw.limit 1
          exact le_trans (by omega) (le_max_left _ _)
      · rw [h1] at hst
        cases hst
        exact h c2 st0 hs0
  · rw [Allow_store_other fw t hcc] at hst
    exact h c st hst

theorem run_limit (fw : FixedWindow) (calls : List (String × Int)) :
    (run fw calls).2.limit = fw.limit := by
  induction calls generalizing fw with
  | nil => rfl
  | cons p rest ih =>
    obtain ⟨c, t⟩ := p
    rw [run_cons]
    exact (ih _).trans (Allow_limit fw c t)

theorem run_windowSize (fw : FixedWindow) (calls : List (String × Int)) :
    (run fw calls).2.windowSize = fw.windowSize := by
  induction calls generalizing fw with
  | nil => rfl
  | cons p rest ih =>
    obtain ⟨c, t⟩ := p
    rw [run_cons]
    exact (ih _).trans (Allow_windowSize fw c t)

/-- Count bounds and the absence of the empty identifier are kept by every run. -/
theorem run_count_bounds (fw : FixedWindow) (calls : List (String × Int))
    (hempty : fw.store "" = none)
    (h : ∀ c st, fw.store c = some st → 1 ≤ st.currReqNum ∧ st.currReqNum ≤ max fw.limit 1) :
    (run fw calls).2.store "" = none ∧
    ∀ c st, (run fw calls).2.store c = some st →
      1 ≤ st.currReqNum ∧ st.currReqNum ≤ max fw.limit 1 := by
  induction calls generalizing fw with
  | nil => exact ⟨hempty, h⟩
  | cons p rest ih =>
    obtain ⟨c2, t⟩ := p
    rw [run_cons]
    have := ih (fw.Allow c2 t).2 (by rw [Allow_store_empty]; exact hempty)
      (by rw [Allow_limit]; exact Allow_count_bounds fw c2 t h)
    rw [Allow_limit] at this
    exact this

theorem run_append (fw : FixedWindow) (xs ys : List (String × Int)) :
    run fw (xs ++ ys) =
      ((run fw xs).1 ++ (run (run fw xs).2 ys).1, (run (run fw xs).2 ys).2) := by
  induction xs generalizing fw with
  | nil => rfl
  | cons p rest ih =>
    obtain ⟨c, t⟩ := p
    rw [List.cons_append, run_cons, run_cons, ih]
    rfl

theorem runClient_append (fw : FixedWindow) (c : String) (xs ys : List Int) :
    (runClient fw c (xs ++ ys)).1 =
      (runClient fw c xs).1 ++ (runClient (runClient fw c xs).2 c ys).1 := by
  unfold runClient
  rw [List.map_append, run_append]

/-- After a non-empty batch of calls of a non-empty client, all at time `t`, the
client's entry carries time `t`. -/
theorem runClient_replicate_time (fw : FixedWindow) (c : String) (t : Int) (n : Nat)
    (hc : c ≠ "") :
    ∃ st, (runClient fw c (List.replicate (n + 1) t)).2.store c = some st ∧
      st.currTime = t := by
  induction n generalizing fw with
  | zero => exact Allow_store_self fw c t hc
  | succ k ih =>
    rw [List.replicate_succ, runClient_cons]
    exact ih (fw.Allow c t).2

/-- A quota run no longer than the limit is admitted throughout. -/
theorem map_range_all_admitted (limit : Int) (n : Nat) (h : (n : Int) ≤ limit) :
    List.map (fun (i : Nat) =>
        if (i : Int) + 1 ≤ limit then ((true, none) : Result)
        else (false, some RlError.ErrRateLimitExceeded)) (List.range n)
      = List.replicate n (true, none) := by
  apply List.ext_getElem
  · simp
  · intro i h1 h2
    simp only [List.length_map, List.length_range] at h1
    simp only [List.getElem_map, List.getElem_range, List.getElem_replicate]
    rw [if_pos (by omega)]

/-- With a non-positive window size, under a strictly increasing clock, every call of
a non-empty client is admitted. -/
theorem run_nonpositive_window (fw : FixedWindow) (calls : List (String × Int))
    (hws : fw.windowSize ≤ 0) (hids : ∀ p ∈ calls, p.1 ≠ "")
    (hinc : List.Pairwise (fun a b => a < b) (calls.map Prod.snd))
    (hst : ∀ c st, fw.store c = some st → ∀ p ∈ calls, st.currTime < p.2) :
    (run fw calls).1 = List.replicate calls.length (true, none) := by
  induction calls generalizing fw with
  | nil => rfl
  | cons p rest ih =>
    obtain ⟨c2, t⟩ := p
    rw [List.map_cons, List.pairwise_cons] at hinc
    obtain ⟨hhead, htail⟩ := hinc
    have hc : c2 ≠ "" := hids (c2, t) (List.mem_cons_self _ _)
    have hT : Truncate t fw.windowSize = t := by simp [Truncate, hws]
    have hfirst : fw.Allow c2 t = ((true, none),
        { fw with store := fw.store.set c2 { currReqNum := 1, currTime := t } }) := by
      cases hs : fw.store c2 with
      | none => exact Allow_none t hc hs
      | some st =>
        exact Allow_reset t hc hs (by rw [hT]; exact hst c2 st hs (c2, t) (List.mem_cons_self _ _))
    rw [run_cons, List.length_cons, List.replicate_succ, hfirst]
    have := ih { fw with store := fw.store.set c2 { currReqNum := 1, currTime := t } } hws
      (fun p hp => hids p (List.mem_cons_of_mem _ hp)) htail
      (fun c st hs p hp => by
        by_cases hcc : c = c2
        · subst hcc
          rw [show ({ fw with store := fw.store.set c { currReqNum := 1, currTime := t } } :
              FixedWindow).store c = some { currReqNum := 1, currTime := t } from
            Store.set_same _ _ _] at hs
          cases hs
          exact hhead p.2 (List.mem_map_of_mem _ hp)
        · rw [show ({ fw with store := fw.store.set c2 { currReqNum := 1, currTime := t } } :
              FixedWindow).store c = fw.store c from Store.set_other _ _ hcc] at hs
          exact hst c st hs p (List.mem_cons_of_mem _ hp))
    simp only at this ⊢
    rw [this]

/-! ## The count as the number of admitted calls of the current window -/

theorem run_length (fw : FixedWindow) (calls : List (String × Int)) :
    (run fw calls).1.length = calls.length := by
  induction calls generalizing fw with
  | nil => rfl
  | cons p rest ih =>
    obtain ⟨c, t⟩ := p
    rw [run_cons, List.length_cons, List.length_cons, ih]

theorem run_snoc (fw : FixedWindow) (calls : List (String × Int)) (c : String) (t : Int) :
    (run fw (calls ++ [(c, t)])).2 = ((run fw calls).2.Allow c t).2 := by
  rw [run_append]
  rfl

theorem trace_snoc (fw : FixedWindow) (calls : List (String × Int)) (c : String) (t : Int) :
    trace fw (calls ++ [(c, t)]) =
      trace fw calls ++ [((c, t), ((run fw calls).2.Allow c t).1)] := by
  unfold trace
  rw [run_append, List.zip_append (run_length fw calls).symm]
  rfl

theorem admittedIn_snoc (d : Int) (c : String) (w : Int) (tr : List ((String × Int) × Result))
    (e : (String × Int) × Result) :
    admittedIn d c w (tr ++ [e]) =
      admittedIn d c w tr + (if e.1.1 = c ∧ inWindow d w e.1.2 ∧ e.2.1 = true then 1 else 0) := by
  unfold admittedIn
  rw [List.filter_append, List.length_append]
  by_cases h : e.1.1 = c ∧ inWindow d w e.1.2 ∧ e.2.1 = true
  · rw [List.filter_cons_of_pos (by simpa using h), if_pos h]
    rfl
  · rw [List.filter_cons_of_neg (by simpa using h), if_neg h]
    rfl

theorem admittedIn_congr_window (d : Int) (c : String) {w w2 : Int}
    (tr : List ((String × Int) × Result)) (h : Truncate w d = Truncate w2 d) :
    admittedIn d c w tr = admittedIn d c w2 tr := by
  simp only [admittedIn, inWindow, h]

theorem admittedIn_eq_zero (d : Int) (c : String) (w : Int)
    (tr : List ((String × Int) × Result))
    (h : ∀ e ∈ tr, e.1.1 = c → ¬ (inWindow d w e.1.2 ∧ e.2.1 = true)) :
    admittedIn d c w tr = 0 := by
  unfold admittedIn
  rw [List.length_eq_zero, List.filter_eq_nil_iff]
  intro e he
  simp only [decide_eq_true_eq, not_and]
  intro h1 h2 h3
  exact h e he h1 ⟨h2, h3⟩

/-- One call, at a time no earlier than every recorded call, keeps the bookkeeping
invariant. -/
theorem CountInv_step (d : Int) (fw : FixedWindow) (tr : List ((String × Int) × Result))
    (c2 : String) (t : Int) (hd : 0 < d) (hw : fw.windowSize = d)
    (hle : ∀ e ∈ tr, e.1.2 ≤ t) (hinv : CountInv d fw tr) :
    CountInv d (fw.Allow c2 t).2 (tr ++ [((c2, t), (fw.Allow c2 t).1)]) := by
  obtain ⟨hempty, hall⟩ := hinv
  refine ⟨by rw [Allow_store_empty]; exact hempty, ?_⟩
  intro c
  obtain ⟨hnone, hsome⟩ := hall c
  by_cases hcc : c2 = c
  · subst hcc
    by_cases hc : c2 = ""
    · subst hc
      rw [Allow_empty]
      constructor
      · intro _ e he hec
        rcases List.mem_append.mp he with he | he
        · exact hnone hempty e he hec
        · rw [List.mem_singleton.mp he]
      · intro st hst
        rw [hempty] at hst
        cases hst
    · obtain ⟨stn, hstn, htn⟩ := Allow_store_self fw c2 t hc
      constructor
      · intro h
        rw [hstn] at h
        cases h
      · intro st hst
        have htime : st.currTime = t := by
          rw [hstn] at hst
          cases hst
          exact htn
        have hin : inWindow d t t := ⟨Truncate_le hd t, lt_Truncate_add hd t⟩
        refine ⟨⟨_, List.mem_append_right _ (List.mem_singleton_self _), htime.symm⟩, ?_, ?_⟩
        · intro e he _
          rw [htime]
          rcases List.mem_append.mp he with he | he
          · exact hle e he
          · rw [List.mem_singleton.mp he]
        · rw [htime, admittedIn_snoc, Nat.cast_add]
          simp only [hin, true_and]
          cases hs : fw.store c2 with
          | none =>
            have hz : admittedIn d c2 t tr = 0 :=
              admittedIn_eq_zero d c2 t tr (fun e he hec h => by
                have := hnone hs e he hec
                rw [this] at h
                exact absurd h.2 (by simp))
            have hA := Allow_none t hc hs
            rw [hA] at hst
            simp only [Store.set_same, Option.some.injEq] at hst
            subst hst
            rw [hA, hz]
            simp
          | some st0 =>
            obtain ⟨⟨e0, he0, hte0⟩, hmax, hcnt⟩ := hsome st0 hs
            have hct : st0.currTime ≤ t := hte0 ▸ hle e0 he0
            by_cases h1 : st0.currTime < Truncate t fw.windowSize
            · have hz : admittedIn d c2 t tr = 0 :=
                admittedIn_eq_zero d c2 t tr (fun e he hec h => by
                  have h2 := hmax e he hec
                  have h3 := h.1.1
                  rw [hw] at h1
                  omega)
              have hA := Allow_reset t hc hs h1
              rw [hA] at hst
              simp only [Store.set_same, Option.some.injEq] at hst
              subst hst
              rw [hA, hz]
              simp
            · have h1' : Truncate t fw.windowSize ≤ st0.currTime := not_lt.mp h1
              have h2 : st0.currTime < Truncate t fw.windowSize + fw.windowSize := by
                have := lt_Truncate_add hd t
                rw [hw]
                omega
              have hTr : Truncate t d = Truncate st0.currTime d := by
                have := Truncate_eq_of_inWindow hd (w := t) (t := st0.currTime)
                  ⟨by rw [← hw]; exact h1', by rw [← hw]; exact h2⟩
                exact this.symm
              rw [admittedIn_congr_window d c2 tr hTr, ← hcnt]
              by_cases hq : st0.currReqNum < fw.limit
              · have hA := Allow_same_ok t hc hs h1' h2 hq
                rw [hA] at hst
                simp only [Store.set_same, Option.some.injEq] at hst
                subst hst
                rw [hA]
                simp
              · have hA := Allow_same_deny t hc hs h1' h2 (not_lt.mp hq)
                rw [hA] at hst
                simp only [Store.set_same, Option.some.injEq] at hst
                subst hst
                rw [hA]
                simp
  · have hne : c ≠ c2 := fun e => hcc e.symm
    rw [Allow_store_other fw t hcc]
    constructor
    · intro h e he hec
      rcases List.mem_append.mp he with he | he
      · exact hnone h e he hec
      · rw [List.mem_singleton.mp he] at hec
        exact absurd hec hcc
    · intro st hst
      obtain ⟨⟨e0, he0, hte0⟩, hmax, hcnt⟩ := hsome st hst
      refine ⟨⟨e0, List.mem_append_left _ he0, hte0⟩, ?_, ?_⟩
      · intro e he hec
        rcases List.mem_append.mp he with he | he
        · exact hmax e he hec
        · rw [List.mem_singleton.mp he] at hec
          exact absurd hec hcc
      · rw [admittedIn_snoc, hcnt]
        simp [hcc]

/-- Under a non-decreasing clock every state reached from a fresh limiter satisfies
the bookkeeping invariant for the calls made so far. -/
theorem CountInv_run (limit d : Int) (calls : List (String × Int)) (hd : 0 < d)
    (hmono : List.Pairwise (fun a b => a ≤ b) (calls.map Prod.snd)) :
    CountInv d (run (NewFixedWindow limit d) calls).2 (trace (NewFixedWindow limit d) calls) := by
  induction calls using List.reverseRecOn with
  | nil =>
    refine ⟨rfl, fun c => ⟨fun _ e he => ?_, fun st hst => ?_⟩⟩
    · simp [trace_nil] at he
    · simp [run, NewFixedWindow] at hst
  | append_singleton l p ih =>
    obtain ⟨c2, t⟩ := p
    rw [List.map_append, List.pairwise_append] at hmono
    obtain ⟨hl, _, hlast⟩ := hmono
    rw [run_snoc, trace_snoc]
    apply CountInv_step d _ _ c2 t hd (run_windowSize _ _) _ (ih hl)
    intro e he
    have hmem : e.1 ∈ l := (List.of_mem_zip (a := e.1) (b := e.2) he).1
    exact hlast e.1.2 (List.mem_map_of_mem _ hmem) t (by simp)

/-! ## The facade: claims -/

/-- C11, as stated, fails: with zero options, or with `WithTokenBucket()` alone,
`NewRateLimit` returns a nil error, and `RateLimit.Allow` returns nothing at all: the
call on the nil strategy aborts with a nil-dereference panic. -/
theorem C11_facade_without_strategy_counterexample :
    (NewRateLimit []).2 = none ∧
    (NewRateLimit []).1.Allow "user123" 63082281600000000000
      = Except.error GoPanic.nilDereference ∧
    (NewRateLimit [WithTokenBucket]).2 = none ∧
    (NewRateLimit [WithTokenBucket]).1.Allow "user123" 63082281600000000000
      = Except.error GoPanic.nilDereference :=
  ⟨rfl, rfl, rfl, rfl⟩

/-- C11 (amended): for a `RateLimit` built by `NewRateLimit` from any number (zero
included) of `WithTokenBucket()` options, construction reports no error, no strategy
is installed and the label is empty, and `RateLimit.Allow` aborts with a
nil-dereference panic for every client and time; it neither admits, nor denies, nor
returns an error. -/
theorem C11_facade_without_strategy (n : Nat) (clientID : String) (now : Int) :
    (NewRateLimit (List.replicate n WithTokenBucket)).2 = none ∧
    (NewRateLimit (List.replicate n WithTokenBucket)).1.rl = none ∧
    (NewRateLimit (List.replicate n WithTokenBucket)).1.Type = "" ∧
    (NewRateLimit (List.replicate n WithTokenBucket)).1.Allow clientID now
      = Except.error GoPanic.nilDereference := by
  have h : NewRateLimit (List.replicate n WithTokenBucket) =
      ({ rl := none, rlType := "" }, none) := by
    have hmap : List.replicate n WithTokenBucket =
        (List.replicate n OptionCall.tokenBucket).map OptionCall.build := by
      rw [List.map_replicate]
      rfl
    rw [NewRateLimit, hmap]
    exact loop_calls_tokenBucket _ _ _ (fun c hc => List.eq_of_mem_replicate hc)
  rw [h]
  exact ⟨rfl, rfl, rfl, rfl⟩

/-- C12: `NewRateLimit` applies every option once, in list order, to the same
`RateLimit` value, the options after one that returned an error included, and returns
that `RateLimit`; the returned error is nil exactly when every option returned nil,
and otherwise it wraps exactly the non-nil errors the options returned, in list
order: its wrapped errors are theirs in order and its message is their messages
separated by newlines. -/
theorem C12_option_errors_accumulated (opts : List RateLimitOption) :
    (NewRateLimit opts).1 = (applyInOrder { rl := none, rlType := "" } opts).1 ∧
    ((NewRateLimit opts).2 = none ↔
      ∀ e ∈ (applyInOrder { rl := none, rlType := "" } opts).2, e = none) ∧
    ∀ e, (NewRateLimit opts).2 = some e →
      e.leaves = GoError.leavesOfList
        ((applyInOrder { rl := none, rlType := "" } opts).2.filterMap id) ∧
      e.Error = joinMessages
        (((applyInOrder { rl := none, rlType := "" } opts).2.filterMap id).map GoError.Error) :=
  ⟨loop_state _ _ opts, (loop_error_none _ opts).1, (loop_error_none _ opts).2⟩

/-- C13: `NewRateLimit(WithFixedWindow(limit, windowSize))` returns a nil error, and
for every sequence of timestamped calls `RateLimit.Allow` returns, without a panic,
exactly the results of the same sequence of `FixedWindow.Allow` calls on
`NewFixedWindow(limit, windowSize)`. -/
theorem C13_facade_forwarding (limit windowSize : Int) (calls : List (String × Int)) :
    (NewRateLimit [WithFixedWindow limit windowSize]).2 = none ∧
    runFacade (NewRateLimit [WithFixedWindow limit windowSize]).1 calls =
      Except.ok (run (NewFixedWindow limit windowSize) calls).1 :=
  ⟨rfl, runFacade_some (NewFixedWindow limit windowSize) "FixedWindow" calls⟩

/-- C14: for every list of options built from `WithFixedWindow(..)` and
`WithTokenBucket()`, `Type()` is "FixedWindow" exactly when a strategy is installed,
which is exactly when the list contains a `WithFixedWindow` option; the installed
strategy is then the limiter of the last `WithFixedWindow` option of the list; with no
such option `Type()` is the empty string and no strategy is installed. -/
theorem C14_type_reports_strategy (calls : List OptionCall) :
    ((NewRateLimit (calls.map OptionCall.build)).1.Type = "FixedWindow" ↔
      (NewRateLimit (calls.map OptionCall.build)).1.rl.isSome = true) ∧
    ((NewRateLimit (calls.map OptionCall.build)).1.rl.isSome = true ↔
      ∃ l d, OptionCall.fixedWindow l d ∈ calls) ∧
    (∀ pre l d post, calls = pre ++ OptionCall.fixedWindow l d :: post →
      (∀ c ∈ post, c = OptionCall.tokenBucket) →
      (NewRateLimit (calls.map OptionCall.build)).1.rl = some (NewFixedWindow l d)) ∧
    ((¬ ∃ l d, OptionCall.fixedWindow l d ∈ calls) →
      (NewRateLimit (calls.map OptionCall.build)).1.Type = "" ∧
      (NewRateLimit (calls.map OptionCall.build)).1.rl = none) := by
  have hlast : ∀ pre l d post, calls = pre ++ OptionCall.fixedWindow l d :: post →
      (∀ c ∈ post, c = OptionCall.tokenBucket) →
      NewRateLimit (calls.map OptionCall.build) =
        ({ rl := some (NewFixedWindow l d), rlType := "FixedWindow" }, none) := by
    intro pre l d post he hp
    rw [he, NewRateLimit]
    exact loop_calls_last _ _ pre post l d hp
  have hnone : (¬ ∃ l d, OptionCall.fixedWindow l d ∈ calls) →
      NewRateLimit (calls.map OptionCall.build) = ({ rl := none, rlType := "" }, none) := by
    intro hno
    rw [NewRateLimit]
    apply loop_calls_tokenBucket
    intro c hc
    cases c with
    | fixedWindow l d => exact absurd ⟨l, d, hc⟩ hno
    | tokenBucket => rfl
  refine ⟨?_, ?_, ?_, ?_⟩
  · by_cases hex : ∃ l d, OptionCall.fixedWindow l d ∈ calls
    · obtain ⟨pre, l, d, post, he, hp⟩ := exists_last_fixedWindow calls hex
      rw [hlast pre l d post he hp]
      simp [RateLimit.Type]
    · rw [hnone hex]
      simp [RateLimit.Type]
  · by_cases hex : ∃ l d, OptionCall.fixedWindow l d ∈ calls
    · obtain ⟨pre, l, d, post, he, hp⟩ := exists_last_fixedWindow calls hex
      rw [hlast pre l d post he hp]
      simpa using hex
    · rw [hnone hex]
      simpa using hex
  · intro pre l d post he hp
    rw [hlast pre l d post he hp]
  · intro hno
    rw [hnone hno]
    exact ⟨rfl, rfl⟩

/-- C15: the option returned by `WithTokenBucket()` returns a nil error and leaves
the `RateLimit` (strategy and label) unchanged; so `NewRateLimit` of a list followed
by `WithTokenBucket()` yields the same strategy, label and error as `NewRateLimit` of
the list. -/
theorem C15_token_bucket_noop (r : RateLimit) (opts : List RateLimitOption) :
    WithTokenBucket r = (r, none) ∧
    NewRateLimit (opts ++ [WithTokenBucket]) = NewRateLimit opts := by
  refine ⟨rfl, ?_⟩
  rw [NewRateLimit, NewRateLimit, loop_append]
  rfl

/-! ## Timestamp refresh, count bounds and window alignment -/

/-- C16, as stated, fails for the empty identifier: `Allow("")` returns before the
store is touched, so afterwards the store holds no entry for it. -/
theorem C16_timestamp_refreshed_counterexample :
    ((NewFixedWindow 5 10000000000).Allow "" 63082281600000000000).1
      = (false, some RlError.ErrInvalidClientID) ∧
    ((NewFixedWindow 5 10000000000).Allow "" 63082281600000000000).2.store "" = none := by
  decide

/-- C16 (amended): for every limiter state, every non-empty client and every time
`now`, after `Allow` at `now` the store holds an entry for the client whose timestamp
is `now`, whether the call was admitted or denied (quota exceeded or clock skew). -/
theorem C16_timestamp_refreshed (fw : FixedWindow) (clientID : String) (now : Int)
    (hc : clientID ≠ "") :
    ∃ st, (fw.Allow clientID now).2.store clientID = some st ∧ st.currTime = now := by
  rcases Allow_store_self_cases fw clientID now hc with h | ⟨_, _, _, h⟩ | ⟨_, _, h⟩
  · exact ⟨_, h, rfl⟩
  · exact ⟨_, h, rfl⟩
  · exact ⟨_, h, rfl⟩

/-- Witness for C16 (limit 5, window 10 s: a clock-skew denial at 50 s after a call at
100 s still stores 50 s). -/
theorem C16_timestamp_refreshed_witness :
    ((run (NewFixedWindow 5 10000000000) [("a", 100000000000)]).2.Allow
        "a" 50000000000).1 = (false, some RlError.ErrRateLimitExceeded) ∧
    ∃ st, ((run (NewFixedWindow 5 10000000000) [("a", 100000000000)]).2.Allow
        "a" 50000000000).2.store "a" = some st ∧ st.currTime = 50000000000 :=
  ⟨by decide,
    C16_timestamp_refreshed (run (NewFixedWindow 5 10000000000) [("a", 100000000000)]).2
      "a" 50000000000 (by decide)⟩

/-- C18: for `limit >= 1` and a window of at least two time units there are
timestamps `t1 < t2` less than a window apart, `t1` just before and `t2` at a
multiple of the window size, such that a client unknown to the store that makes
`limit` calls at `t1` and then `limit` calls at `t2` has all `2 * limit` calls
admitted. -/
theorem C18_window_alignment (fw : FixedWindow) (clientID : String)
    (hlimit : 1 ≤ fw.limit) (hws : 2 ≤ fw.windowSize) (hc : clientID ≠ "")
    (hnone : fw.store clientID = none) :
    ∃ t1 t2 : Int, t1 < t2 ∧ t2 - t1 < fw.windowSize ∧ t1 + 1 = t2 ∧
      t2 % fw.windowSize = 0 ∧
      (runClient fw clientID
          (List.replicate fw.limit.toNat t1 ++ List.replicate fw.limit.toNat t2)).1
        = List.replicate (2 * fw.limit.toNat) (true, none) := by
  have hd : 0 < fw.windowSize := by omega
  refine ⟨fw.windowSize - 1, fw.windowSize, by omega, by omega, by omega,
    Int.emod_self, ?_⟩
  obtain ⟨k, hk⟩ : ∃ k, fw.limit.toNat = k + 1 := ⟨fw.limit.toNat - 1, by omega⟩
  have hn : ((fw.limit.toNat : Nat) : Int) ≤ fw.limit := by omega
  have hin1 : inWindow fw.windowSize (fw.windowSize - 1) (fw.windowSize - 1) :=
    ⟨Truncate_le hd _, lt_Truncate_add hd _⟩
  have hin2 : inWindow fw.windowSize fw.windowSize fw.windowSize :=
    ⟨Truncate_le hd _, lt_Truncate_add hd _⟩
  have hT2 : Truncate fw.windowSize fw.windowSize = fw.windowSize := by
    rw [Truncate_pos hd, Int.emod_self]
    omega
  have h1 := runClient_fresh_window fw clientID (fw.windowSize - 1)
    (List.replicate fw.limit.toNat (fw.windowSize - 1)) hlimit hd hc (Or.inl hnone)
    (fun t ht => by rw [List.eq_of_mem_replicate ht]; exact hin1)
  rw [List.length_replicate, map_range_all_admitted fw.limit _ hn] at h1
  obtain ⟨st, hst, htime⟩ :
      ∃ st, (runClient fw clientID
        (List.replicate fw.limit.toNat (fw.windowSize - 1))).2.store clientID = some st ∧
        st.currTime = fw.windowSize - 1 := by
    rw [hk]
    exact runClient_replicate_time fw clientID _ k hc
  have hl2 : (runClient fw clientID
      (List.replicate fw.limit.toNat (fw.windowSize - 1))).2.limit = fw.limit :=
    run_limit _ _
  have hw2 : (runClient fw clientID
      (List.replicate fw.limit.toNat (fw.windowSize - 1))).2.windowSize = fw.windowSize :=
    run_windowSize _ _
  have h2 := runClient_fresh_window
    (runClient fw clientID (List.replicate fw.limit.toNat (fw.windowSize - 1))).2
    clientID fw.windowSize (List.replicate fw.limit.toNat fw.windowSize)
    (by rw [hl2]; exact hlimit) (by rw [hw2]; exact hd) hc
    (Or.inr ⟨st, hst, by rw [hw2, hT2, htime]; omega⟩)
    (fun t ht => by rw [hw2, List.eq_of_mem_replicate ht]; exact hin2)
  rw [List.length_replicate, hl2, map_range_all_admitted fw.limit _ hn] at h2
  rw [runClient_append, h1, h2, List.append_replicate_replicate, two_mul]

/-- Witness for C18 (the `WindowBoundary` configuration: limit 2, window 1 s; two
calls one nanosecond before a boundary and two at the boundary, all admitted). -/
theorem C18_window_alignment_witness :
    ∃ t1 t2 : Int, t1 < t2 ∧ t2 - t1 < (NewFixedWindow 2 1000000000).windowSize ∧
      t1 + 1 = t2 ∧ t2 % (NewFixedWindow 2 1000000000).windowSize = 0 ∧
      (runClient (NewFixedWindow 2 1000000000) "user123"
          (List.replicate (NewFixedWindow 2 1000000000).limit.toNat t1 ++
            List.replicate (NewFixedWindow 2 1000000000).limit.toNat t2)).1
        = List.replicate (2 * (NewFixedWindow 2 1000000000).limit.toNat) (true, none) :=
  C18_window_alignment (NewFixedWindow 2 1000000000) "user123"
    (by decide) (by decide) (by decide) rfl

/-- C19: in every state reached from `NewFixedWindow(limit, windowSize)` by any
sequence of `Allow` calls, with any client identifiers, any timestamps (a clock that
moves backward included) and any integer limit and window size, the store has no
entry for the empty identifier and every entry has a count between 1 and
`max limit 1`. -/
theorem C19_count_bounds (limit windowSize : Int) (calls : List (String × Int)) :
    (run (NewFixedWindow limit windowSize) calls).2.store "" = none ∧
    ∀ c st, (run (NewFixedWindow limit windowSize) calls).2.store c = some st →
      1 ≤ st.currReqNum ∧ st.currReqNum ≤ max limit 1 :=
  run_count_bounds (NewFixedWindow limit windowSize) calls rfl
    (fun c st hs => by simp [NewFixedWindow] at hs)

/-- C20: `NewFixedWindow` keeps a window size `<= 0` as given; for a limiter with
such a window size every `Allow` call of a non-empty client made at a time strictly
later than the client's stored timestamp returns `(true, nil)` and resets the count
to 1, whatever the limit; so on a limiter created by `NewFixedWindow`, under a
strictly increasing clock, every call of a non-empty client is admitted. -/
theorem C20_nonpositive_window (limit windowSize : Int) (fw : FixedWindow)
    (clientID : String) (st : ClientState) (now : Int) (calls : List (String × Int))
    (hws : windowSize ≤ 0) (hfw : fw.windowSize ≤ 0) (hc : clientID ≠ "")
    (hst : fw.store clientID = some st) (hlater : st.currTime < now)
    (hids : ∀ p ∈ calls, p.1 ≠ "")
    (hinc : List.Pairwise (fun a b => a < b) (calls.map Prod.snd)) :
    (NewFixedWindow limit windowSize).windowSize = windowSize ∧
    Truncate now fw.windowSize = now ∧
    (fw.Allow clientID now).1 = (true, none) ∧
    (fw.Allow clientID now).2.store clientID = some { currReqNum := 1, currTime := now } ∧
    (run (NewFixedWindow limit windowSize) calls).1
      = List.replicate calls.length (true, none) := by
  have hT : Truncate now fw.windowSize = now := by simp [Truncate, hfw]
  have hres := Allow_reset now hc hst (by rw [hT]; exact hlater)
  refine ⟨rfl, hT, by rw [hres], by rw [hres]; exact Store.set_same _ _ _, ?_⟩
  exact run_nonpositive_window (NewFixedWindow limit windowSize) calls hws hids hinc
    (fun c st hs => by simp [NewFixedWindow] at hs)

/-- Witness for C20 (limit 1, window 0: a second call one nanosecond after the first
is admitted with count 1, and three calls of one client at increasing times are all
admitted). -/
theorem C20_nonpositive_window_witness :
    (NewFixedWindow 1 0).windowSize = 0 ∧
    Truncate 63082281600000000001
      ((NewFixedWindow 1 0).Allow "user123" 63082281600000000000).2.windowSize
        = 63082281600000000001 ∧
    (((NewFixedWindow 1 0).Allow "user123" 63082281600000000000).2.Allow
        "user123" 63082281600000000001).1 = (true, none) ∧
    (((NewFixedWindow 1 0).Allow "user123" 63082281600000000000).2.Allow
        "user123" 63082281600000000001).2.store "user123"
      = some { currReqNum := 1, currTime := 63082281600000000001 } ∧
    (run (NewFixedWindow 1 0)
        [("user123", 63082281600000000000), ("user123", 63082281600000000001),
         ("user123", 63082281600000000002)]).1
      = List.replicate
          [("user123", 63082281600000000000), ("user123", 63082281600000000001),
           ("user123", (63082281600000000002 : Int))].length (true, none) :=
  C20_nonpositive_window 1 0
    ((NewFixedWindow 1 0).Allow "user123" 63082281600000000000).2 "user123"
    { currReqNum := 1, currTime := 63082281600000000000 } 63082281600000000001
    [("user123", 63082281600000000000), ("user123", 63082281600000000001),
     ("user123", 63082281600000000002)]
    (by decide) (by decide) (by decide) (by decide) (by decide) (by decide) (by decide)

/-- C17: for every limit and `windowSize > 0`, in every sequence of `Allow` calls
with non-decreasing timestamps on a limiter created by `NewFixedWindow`, after each
call (after the first `k` calls, for every `k`) every client in the store has a count
equal to the number of calls made so far for that client that were admitted and whose
timestamp lies in the same clock-aligned window as the client's stored timestamp. -/
theorem C17_count_is_admitted_in_window (limit windowSize : Int)
    (calls : List (String × Int)) (k : Nat) (clientID : String) (st : ClientState)
    (hws : 0 < windowSize)
    (hmono : List.Sorted (fun a b => a ≤ b) (calls.map Prod.snd))
    (hst : (run (NewFixedWindow limit windowSize) (calls.take k)).2.store clientID = some st) :
    st.currReqNum =
      (admittedIn windowSize clientID st.currTime
        (trace (NewFixedWindow limit windowSize) (calls.take k)) : Int) := by
  have hpre : List.Pairwise (fun a b => a ≤ b) ((calls.take k).map Prod.snd) := by
    rw [List.map_take]
    exact List.Pairwise.sublist (List.take_sublist _ _) hmono
  exact (((CountInv_run limit windowSize (calls.take k) hws hpre).2 clientID).2 st hst).2.2

/-- Witness for C17 (limit 2, window 10 s; after five of seven calls client a has
count 2, the two admitted calls of the first window). -/
theorem C17_count_is_admitted_in_window_witness :
    ({ currReqNum := 2, currTime := 63082281603000000000 } : ClientState).currReqNum =
      (admittedIn 10000000000 "a"
        ({ currReqNum := 2, currTime := 63082281603000000000 } : ClientState).currTime
        (trace (NewFixedWindow 2 10000000000)
          (List.take 5
            [("a", 63082281600000000000), ("b", 63082281601000000000),
             ("a", 63082281602000000000), ("a", 63082281603000000000),
             ("b", 63082281604000000000), ("a", 63082281609999999999),
             ("a", 63082281610000000000)])) : Int) :=
  C17_count_is_admitted_in_window 2 10000000000
    [("a", 63082281600000000000), ("b", 63082281601000000000),
     ("a", 63082281602000000000), ("a", 63082281603000000000),
     ("b", 63082281604000000000), ("a", 63082281609999999999),
     ("a", 63082281610000000000)] 5 "a"
    { currReqNum := 2, currTime := 63082281603000000000 }
    (by decide) (by decide) (by decide)

end Ratelimiter
